import Mathlib

/-!
Verification of the rds-module-generator rendering pipeline
(`src/index.ts` of jooonhoe/riiid-rds-module-generator).

The TypeScript source renders Terraform text with the `endent` template
tag (npm package `endent`, which builds on `dedent` 0.7.x) and places the
rendered files on disk.  The embedding below models:

* the JavaScript string primitives that `endent`/`dedent` use
  (`String.prototype.split('\n')`, `Array.prototype.join`, `trim`,
  the `/^(\s+)\S+/` indentation match, `replace(/\\n/g, '\n')`),
  over `List Char`;
* the `endent` tag itself: values are interpolated with
  `String(value).split('\n').join('\n' + indent)` where `indent` is the
  run of spaces between the last newline of the text accumulated so far
  and the interpolation point (the `/(?:^|\n)( *)$/` match), and the
  fully interpolated text is then passed through `dedent`
  (strip the minimal indentation of the indented non-blank lines from
  every line that starts with a space, `trim()` the result, and replace
  every literal backslash-n pair by a newline);
* the five template functions, the target-directory computation and the
  per-file placement step of `src/index.ts`, chunk for chunk byte-exact
  with the template literals of the source (the template literals of the
  source contain no escaped backtick and no backslash-newline, so
  `endent`'s unescaping passes are identities and are not modelled);
* `Object.entries` of a plain JavaScript object as built by `js-yaml`
  from a mapping: own property keys are enumerated with array-index keys
  (canonical decimal strings below 2^32 - 1) first in ascending numeric
  order, then the remaining string keys in insertion order
  (ECMAScript OrdinaryOwnPropertyKeys).
-/

namespace RdsGen

/-- The characters matched by JavaScript `\s` (and trimmed by
`String.prototype.trim`): ASCII whitespace, NBSP, BOM and the Unicode
space separators. -/
def jsWs (c : Char) : Bool :=
  c = ' ' || c = '\t' || c = '\n' || c = '\r' || c = '\x0b' || c = '\x0c' ||
  c = '\u00A0' || c = '\uFEFF' || c = '\u1680' ||
  ('\u2000' ≤ c && c ≤ '\u200A') ||
  c = '\u2028' || c = '\u2029' || c = '\u202F' || c = '\u205F' || c = '\u3000'

/-- JavaScript `str.split('\n')`: the segments between newlines, empty
segments kept, one (possibly empty) segment more than there are newlines. -/
def splitLines : List Char → List (List Char)
  | [] => [[]]
  | c :: rest =>
    if c = '\n' then [] :: splitLines rest
    else
      match splitLines rest with
      | [] => [[c]]
      | l :: ls => (c :: l) :: ls

/-- JavaScript `lines.join('\n')`. -/
def joinLines (lines : List (List Char)) : List Char :=
  List.intercalate ['\n'] lines

/-- The `l.match(/^(\s+)\S+/)` step of `dedent`: `some n` when the line
starts with `n ≥ 1` whitespace characters followed by at least one
non-whitespace character, its captured indentation width. -/
def lineIndentLen (l : List Char) : Option Nat :=
  let ws := l.takeWhile jsWs
  if 0 < ws.length && ws.length < l.length then some ws.length else none

/-- Minimum of two optional indentation widths (`null` when neither line
was indented). -/
def optMin : Option Nat → Option Nat → Option Nat
  | none, b => b
  | some a, none => some a
  | some a, some b => some (min a b)

/-- `dedent`'s `mindent`: the least indentation width over all lines that
match `/^(\s+)\S+/`, `none` when no line does. -/
def mindentOf (lines : List (List Char)) : Option Nat :=
  lines.foldl (fun acc l => optMin acc (lineIndentLen l)) none

/-- `dedent`'s per-line strip: `l[0] === ' ' ? l.slice(mindent) : l`. -/
def stripLine (m : Nat) (l : List Char) : List Char :=
  if l.head? = some ' ' then l.drop m else l

/-- Drop trailing JavaScript whitespace. -/
def dropTrailingWs (l : List Char) : List Char :=
  (l.reverse.dropWhile jsWs).reverse

/-- JavaScript `String.prototype.trim`. -/
def jsTrim (l : List Char) : List Char :=
  dropTrailingWs (l.dropWhile jsWs)

/-- `result.replace(/\\n/g, '\n')`: every literal backslash-n pair becomes
a newline, scanning left to right. -/
def replaceBackslashN : List Char → List Char
  | '\\' :: 'n' :: rest => '\n' :: replaceBackslashN rest
  | c :: rest => c :: replaceBackslashN rest
  | [] => []

/-- `dedent` (npm package dedent 0.7.x) applied to an already
interpolated string: compute `mindent`, strip it from every line that
starts with a space, `trim()`, and rewrite literal `\n` pairs. -/
def dedentL (s : List Char) : List Char :=
  let lines := splitLines s
  let stripped :=
    match mindentOf lines with
    | none => s
    | some m => joinLines (lines.map (stripLine m))
  replaceBackslashN (jsTrim stripped)

/-- The text after the last newline of `s` (all of `s` when it has no
newline). -/
def afterLastNewline (s : List Char) : List Char :=
  (s.reverse.takeWhile (fun c => c ≠ '\n')).reverse

/-- `endent`'s `/(?:^|\n)( *)$/` match on the text accumulated so far:
the spaces of the interpolation point's line when that line holds only
spaces so far, `[]` otherwise. -/
def lineIndentTail (s : List Char) : List Char :=
  let t := afterLastNewline s
  if t.all (fun c => c = ' ') then t else []

/-- `endent`'s interpolation of one value:
`String(value).split('\n').join('\n' + indent)`. -/
def indentValue (v cur : List Char) : List Char :=
  List.intercalate ('\n' :: lineIndentTail cur) (splitLines v)

/-- The interpolation loop of the `endent` tag: chunks of the template
literal are appended as they stand, each value is appended indented to
the column of its interpolation point. -/
def endentCore (acc : List Char) : List (List Char) → List (List Char) → List Char
  | [], _ => acc
  | c :: cs, [] => endentCore (acc ++ c) cs []
  | c :: cs, v :: vs => endentCore (acc ++ c ++ indentValue v (acc ++ c)) cs vs

/-- The `endent` template tag: interpolate, then `dedent`. -/
def endent (chunks values : List String) : String :=
  String.mk (dedentL (endentCore [] (chunks.map String.data) (values.map String.data)))

/-- JavaScript `parts.join('\n')` on a list of strings. -/
def joinNL (l : List String) : String :=
  String.mk (List.intercalate ['\n'] (l.map String.data))

/-! ## The data model of `src/index.ts` -/

/-- `interface InstanceSpec`. -/
structure InstanceSpec where
  instanceClass : String
  promotionTier : Int
deriving Repr, DecidableEq

/-- `interface VaultSpec`. -/
structure VaultSpec where
  path : String
  databaseNameKey : String
  usernameKey : String
  passwordKey : String
  endpointOutputKey : String
deriving Repr, DecidableEq

/-- `interface SGRuleSpec` (`type?` is optional). -/
structure SGRuleSpec where
  type : Option String
  description : String
  fromPort : Int
  toPort : Int
  cidrBlocks : List String
deriving Repr, DecidableEq

/-- `interface Spec`.  `instances` is the mapping parsed by js-yaml, as
an association list in document order (the order the keys were assigned
to the object). -/
structure Spec where
  region : String
  project : String
  component : String
  env : String
  nameOverride : Option String
  engineVersion : String
  instances : List (String × InstanceSpec)
  vault : VaultSpec
  extraSGRules : Option (List SGRuleSpec)
deriving Repr, DecidableEq

/-! ## `Object.entries` on the parsed mapping

js-yaml builds a plain object, assigning the mapping's keys in document
order.  `Object.entries` enumerates own property keys per ECMAScript
OrdinaryOwnPropertyKeys: keys that are array indices (the canonical
decimal representation of an integer below 2^32 - 1) come first in
ascending numeric order, the other string keys follow in insertion
order. -/

/-- Decimal digit test. -/
def isDigitChar (c : Char) : Bool := '0' ≤ c && c ≤ '9'

/-- Numeric value of a decimal digit string. -/
def decimalValue (s : List Char) : Nat :=
  s.foldl (fun n c => 10 * n + (c.toNat - '0'.toNat)) 0

/-- Is the string an ECMAScript array index: the canonical (no leading
zero) decimal form of an integer `< 2^32 - 1`? -/
def isArrayIndexKey (s : String) : Bool :=
  !s.data.isEmpty && s.data.all isDigitChar &&
    (s = "0" || s.data.head? ≠ some '0') &&
    decimalValue s.data < 4294967295

/-- Numeric value of an entry's key. -/
def keyNat (kv : String × InstanceSpec) : Nat := decimalValue kv.1.data

/-- Insert into a list sorted by ascending key value. -/
def insertSorted (x : String × InstanceSpec) :
    List (String × InstanceSpec) → List (String × InstanceSpec)
  | [] => [x]
  | y :: ys => if keyNat x ≤ keyNat y then x :: y :: ys else y :: insertSorted x ys

/-- Sort entries by ascending numeric key value (insertion sort). -/
def sortByKeyNat (l : List (String × InstanceSpec)) : List (String × InstanceSpec) :=
  l.foldr insertSorted []

/-- `Object.entries(doc.instances)`: array-index keys first in ascending
numeric order, then the remaining keys in insertion order. -/
def jsEntries (m : List (String × InstanceSpec)) : List (String × InstanceSpec) :=
  sortByKeyNat (m.filter (fun kv => isArrayIndexKey kv.1)) ++
    m.filter (fun kv => !isArrayIndexKey kv.1)

/-! ## The template functions of `src/index.ts`

Each template literal is embedded as its raw chunks (byte-exact with the
source, `{` and `}` written with hexadecimal escapes) and the interpolated
expressions in order. -/

/-- `configFileTemplate` (src/index.ts lines 46-68). -/
def configFileTemplate (doc : Spec) : String :=
  endent
    ["\n    terraform \x7b\n      required_version = \">= 1.0.0\"\n\n      backend \"s3\" \x7b\n        bucket = \"riiid-aws-service-",
     "-terraform-1.0.0\"\n        key    = \"service/",
     "/",
     "/rds_generated/tfstate\"\n        region = \"",
     "\"\n      \x7d\n    \x7d\n\n    module \"const\" \x7b source = \"../../../../../const\" \x7d\n\n    provider \"vault\" \x7b\n      address = module.const.vault.addr\n    \x7d\n\n    provider \"aws\" \x7b\n      region = \"",
     "\"\n    \x7d"]
    [doc.env, doc.project, doc.component, doc.region, doc.region]
  ++ "\n"

/-- `instanceTemplate` (src/index.ts lines 70-77). -/
def instanceTemplate (key : String) (spec : InstanceSpec) : String :=
  endent
    ["\n    ",
     " = \x7b\n      instance_class = \"",
     "\"\n      promotion_tier = ",
     "\n    \x7d\n  "]
    [key, spec.instanceClass, toString spec.promotionTier]

/-- `sgRule.type || 'ingress'`: JavaScript truthiness, so `undefined`
and the empty string both fall back to `"ingress"`. -/
def typeOrIngress (t : Option String) : String :=
  match t with
  | none => "ingress"
  | some s => if s = "" then "ingress" else s

/-- `sgRule.cidrBlocks.map(block => `"${block}",`).join('\n')`. -/
def cidrJoined (sgRule : SGRuleSpec) : String :=
  joinNL (sgRule.cidrBlocks.map (fun block => "\"" ++ block ++ "\","))

/-- `sgRuleTemplate` (src/index.ts lines 79-91). -/
def sgRuleTemplate (sgRule : SGRuleSpec) : String :=
  endent
    ["\n    \x7b\n      type        = \"",
     "\"\n      description = \"",
     "\"\n      from_port   = ",
     "\n      to_port     = ",
     "\n      cidr_blocks = [\n        ",
     "\n      ]\n    \x7d,\n  "]
    [typeOrIngress sgRule.type,
     sgRule.description,
     toString sgRule.fromPort,
     toString sgRule.toPort,
     cidrJoined sgRule]

/-- `extraSGRules.map(spec => sgRuleTemplate(spec)).join('\n')`. -/
def sgJoined (rules : List SGRuleSpec) : String :=
  joinNL (rules.map (fun spec => sgRuleTemplate spec))

/-- `extraSGRulesTemplate` (src/index.ts lines 93-105): empty string when
the argument is `undefined` or an empty array. -/
def extraSGRulesTemplate (extraSGRules : Option (List SGRuleSpec)) : String :=
  match extraSGRules with
  | none => ""
  | some rules =>
    if rules.length = 0 then ""
    else
      endent
        ["\n    extra_sg_rules = [\n      ",
         "\n    ]\n  "]
        [sgJoined rules]

/-- `doc.nameOverride ? `\nname_override = ${doc.nameOverride}\n` : ''`:
JavaScript truthiness, so `undefined` and the empty string both yield the
empty fragment. -/
def nameOverrideFragment (nameOverride : Option String) : String :=
  match nameOverride with
  | none => ""
  | some s => if s = "" then "" else "\nname_override = " ++ s ++ "\n"

/-- `Object.entries(doc.instances).map(([key, instanceSpec]) =>
instanceTemplate(key, instanceSpec)).join('\n')`. -/
def instancesJoined (doc : Spec) : String :=
  joinNL ((jsEntries doc.instances).map (fun kv => instanceTemplate kv.1 kv.2))

/-- `rdsFileTemplate` (src/index.ts lines 107-132). -/
def rdsFileTemplate (doc : Spec) : String :=
  endent
    ["\n  module \"riiid_rds\" \x7b\n    source = \"../../../../../modules/aws/rds\"\n\n    project   = \"",
     "\"\n    component = \"",
     "\"\n    env       = \"",
     "\"\n    ",
     "\n    engine_version = \"",
     "\"\n    \n    instances = \x7b\n      ",
     "\n    \x7d\n\n    vault = \x7b\n      path                = \"",
     "\"\n      database_name_key   = \"",
     "\"\n      username_key        = \"",
     "\"\n      password_key        = \"",
     "\"\n      endpoint_output_key = \"",
     "\"\n    \x7d\n    ",
     "\n  \x7d\n  "]
    [doc.project, doc.component, doc.env,
     nameOverrideFragment doc.nameOverride,
     doc.engineVersion,
     instancesJoined doc,
     doc.vault.path, doc.vault.databaseNameKey, doc.vault.usernameKey,
     doc.vault.passwordKey, doc.vault.endpointOutputKey,
     extraSGRulesTemplate doc.extraSGRules]
  ++ "\n"

/-! ## The placement step of `run` (src/index.ts lines 166-176) -/

/-- The target directory of a spec:
`./riiid-aws-service-${spec.env}/service/${spec.project}/${spec.component}/rds-generated`. -/
def targetDir (spec : Spec) : String :=
  "./riiid-aws-service-" ++ spec.env ++ "/service/" ++ spec.project ++ "/" ++
    spec.component ++ "/rds-generated"

/-- A filesystem: files as path-content pairs, plus the set of existing
directories. -/
structure FSState where
  files : List (String × String)
  dirs : List String
deriving Repr, DecidableEq

/-- Write (create or overwrite) path `p` with content `c`. -/
def upsert (p c : String) : List (String × String) → List (String × String)
  | [] => [(p, c)]
  | (q, d) :: rest => if q = p then (p, c) :: rest else (q, d) :: upsert p c rest

/-- Remove every entry at path `p`. -/
def removeFile (p : String) : List (String × String) → List (String × String)
  | [] => []
  | (q, d) :: rest => if q = p then removeFile p rest else (q, d) :: removeFile p rest

/-- The content stored at path `p`, if any. -/
def lookupFile (p : String) : List (String × String) → Option String
  | [] => none
  | (q, d) :: rest => if q = p then some d else lookupFile p rest

/-- `if (!fs.existsSync(dir)) fs.mkdirSync(dir, { recursive: true })`. -/
def ensureDir (d : String) (fs : FSState) : FSState :=
  if fs.dirs.contains d then fs else { fs with dirs := d :: fs.dirs }

/-- Which filesystem calls succeed.  `fs.promises.writeFile` and
`fs.promises.rm` are external collaborators; a `false` answer models the
call rejecting, which in the source propagates as an exception and stops
the remaining statements of the loop body. -/
structure FsOracle where
  writeOk : String → Bool
  rmOk : String → Bool

/-- The loop body of `run` for one detected file (src/index.ts lines
166-176), after the spec has been parsed: ensure the target directory,
write `config.tf`, write `main.tf`, then remove the input file.  The
returned flag is `true` when every call succeeded; on the first failing
call the filesystem reached so far is returned unchanged (the exception
aborts the rest of the body, already performed writes stay). -/
def processSpecFile (o : FsOracle) (filePath : String) (spec : Spec)
    (fs0 : FSState) : FSState × Bool :=
  let dir := targetDir spec
  let fs1 := ensureDir dir fs0
  if o.writeOk (dir ++ "/config.tf") then
    let fs2 := { fs1 with
      files := upsert (dir ++ "/config.tf") (configFileTemplate spec) fs1.files }
    if o.writeOk (dir ++ "/main.tf") then
      let fs3 := { fs2 with
        files := upsert (dir ++ "/main.tf") (rdsFileTemplate spec) fs2.files }
      if o.rmOk filePath then
        ({ fs3 with files := removeFile filePath fs3.files }, true)
      else (fs3, false)
    else (fs2, false)
  else (fs1, false)

/-! ## Cleanliness of interpolated field values

The generated text is only claimed for field values that are plain
single-line literals: the spec's §3 invariant makes the spec author
responsible for supplying values that need no escaping.  A clean value is
nonempty and contains no JavaScript whitespace (in particular no newline)
and no backslash. -/

/-- A character that keeps interpolation inert: not whitespace, not a
backslash. -/
def cleanChar (c : Char) : Bool := !jsWs c && c ≠ '\\'

/-- A clean interpolated value: nonempty, all characters clean.  Needed
for values that can start a generated line (instance keys). -/
def cleanStr (s : String) : Bool := !s.data.isEmpty && s.data.all cleanChar

/-- An inert interpolated value: no newline, no backslash.  Enough for
values that sit strictly inside a generated line. -/
def inertStr (s : String) : Bool := s.data.all (fun c => !(c = '\n' || c = '\\'))

/-! ## The line structure of each template's output

For clean field values the rendered text of each template is a fixed list
of lines; the lists below are established equal to the templates' output
by the closed-form theorems further down. -/

/-- The lines of `instanceTemplate`'s raw (interpolated, not yet dedented)
text. -/
def preInstanceLines (key : String) (spec : InstanceSpec) : List (List Char) :=
  [[],
   ("    ").data ++ (key.data ++ (" = \x7b").data),
   ("      instance_class = \"").data ++ (spec.instanceClass.data ++ ("\"").data),
   ("      promotion_tier = ").data ++ (toString spec.promotionTier).data,
   ("    \x7d").data,
   ("  ").data]

/-- The lines of `instanceTemplate`'s output. -/
def instanceLines (key : String) (spec : InstanceSpec) : List (List Char) :=
  [key.data ++ (" = \x7b").data,
   ("  instance_class = \"").data ++ (spec.instanceClass.data ++ ("\"").data),
   ("  promotion_tier = ").data ++ (toString spec.promotionTier).data,
   ("\x7d").data]

/-- The lines of `sgRuleTemplate`'s raw (interpolated, not yet dedented)
text. -/
def preSgLines (sgRule : SGRuleSpec) : List (List Char) :=
  [[],
   ("    \x7b").data,
   ("      type        = \"").data ++ ((typeOrIngress sgRule.type).data ++ ("\"").data),
   ("      description = \"").data ++ (sgRule.description.data ++ ("\"").data),
   ("      from_port   = ").data ++ (toString sgRule.fromPort).data,
   ("      to_port     = ").data ++ (toString sgRule.toPort).data,
   ("      cidr_blocks = [").data] ++
  ((splitLines (cidrJoined sgRule).data).map (fun p => ("        ").data ++ p) ++
   [("      ]").data, ("    \x7d,").data, ("  ").data])

/-- The lines of `sgRuleTemplate`'s output. -/
def sgLines (sgRule : SGRuleSpec) : List (List Char) :=
  ("\x7b").data ::
    (([("  type        = \"").data ++ ((typeOrIngress sgRule.type).data ++ ("\"").data),
       ("  description = \"").data ++ (sgRule.description.data ++ ("\"").data),
       ("  from_port   = ").data ++ (toString sgRule.fromPort).data,
       ("  to_port     = ").data ++ (toString sgRule.toPort).data,
       ("  cidr_blocks = [").data] ++
      ((splitLines (cidrJoined sgRule).data).map (fun p => ("    ").data ++ p) ++
       [("  ]").data])) ++
     [("\x7d,").data])

/-- The lines of `extraSGRulesTemplate`'s raw (interpolated, not yet
dedented) text, for a nonempty rule list. -/
def preExtraLines (rules : List SGRuleSpec) : List (List Char) :=
  [[],
   ("    extra_sg_rules = [").data] ++
  ((splitLines (sgJoined rules).data).map (fun p => ("      ").data ++ p) ++
   [("    ]").data, ("  ").data])

/-- The lines of `extraSGRulesTemplate`'s output, for a nonempty rule
list. -/
def extraLines (rules : List SGRuleSpec) : List (List Char) :=
  ("extra_sg_rules = [").data ::
    (((splitLines (sgJoined rules).data).map (fun p => ("  ").data ++ p)) ++
     [("]").data])

/-- All interpolated fields of one security rule are inert. -/
def inertSGRule (r : SGRuleSpec) : Bool :=
  inertStr (typeOrIngress r.type) && inertStr r.description &&
  inertStr (toString r.fromPort) && inertStr (toString r.toPort) &&
  r.cidrBlocks.all (fun b => inertStr b)

/-- The lines of `configFileTemplate`'s raw (interpolated, not yet
dedented) text. -/
def preConfigLines (doc : Spec) : List (List Char) :=
  [[],
   ("    terraform \x7b").data,
   ("      required_version = \">= 1.0.0\"").data,
   [],
   ("      backend \"s3\" \x7b").data,
   ("        bucket = \"riiid-aws-service-").data ++
     (doc.env.data ++ ("-terraform-1.0.0\"").data),
   ("        key    = \"service/").data ++
     (doc.project.data ++ (("/").data ++
       (doc.component.data ++ ("/rds_generated/tfstate\"").data))),
   ("        region = \"").data ++ (doc.region.data ++ ("\"").data),
   ("      \x7d").data,
   ("    \x7d").data,
   [],
   ("    module \"const\" \x7b source = \"../../../../../const\" \x7d").data,
   [],
   ("    provider \"vault\" \x7b").data,
   ("      address = module.const.vault.addr").data,
   ("    \x7d").data,
   [],
   ("    provider \"aws\" \x7b").data,
   ("      region = \"").data ++ (doc.region.data ++ ("\"").data),
   ("    \x7d").data]

/-- The lines of `configFileTemplate`'s output (before the final
appended newline). -/
def configLines (doc : Spec) : List (List Char) :=
  ("terraform \x7b").data ::
    (([("  required_version = \">= 1.0.0\"").data,
       [],
       ("  backend \"s3\" \x7b").data,
       ("    bucket = \"riiid-aws-service-").data ++
         (doc.env.data ++ ("-terraform-1.0.0\"").data),
       ("    key    = \"service/").data ++
         (doc.project.data ++ (("/").data ++
           (doc.component.data ++ ("/rds_generated/tfstate\"").data))),
       ("    region = \"").data ++ (doc.region.data ++ ("\"").data),
       ("  \x7d").data,
       ("\x7d").data,
       [],
       ("module \"const\" \x7b source = \"../../../../../const\" \x7d").data,
       [],
       ("provider \"vault\" \x7b").data,
       ("  address = module.const.vault.addr").data,
       ("\x7d").data,
       [],
       ("provider \"aws\" \x7b").data,
       ("  region = \"").data ++ (doc.region.data ++ ("\"").data)] : List (List Char)) ++
     [("\x7d").data])

/-- The lines of `rdsFileTemplate`'s raw (interpolated, not yet dedented)
text. -/
def preRdsLines (doc : Spec) : List (List Char) :=
  [[],
   ("  module \"riiid_rds\" \x7b").data,
   ("    source = \"../../../../../modules/aws/rds\"").data,
   [],
   ("    project   = \"").data ++ (doc.project.data ++ ("\"").data),
   ("    component = \"").data ++ (doc.component.data ++ ("\"").data),
   ("    env       = \"").data ++ (doc.env.data ++ ("\"").data)] ++
  (((splitLines (nameOverrideFragment doc.nameOverride).data).map
      (fun p => ("    ").data ++ p)) ++
   ([("    engine_version = \"").data ++ (doc.engineVersion.data ++ ("\"").data),
     ("    ").data,
     ("    instances = \x7b").data] ++
    (((splitLines (instancesJoined doc).data).map (fun p => ("      ").data ++ p)) ++
     ([("    \x7d").data,
       [],
       ("    vault = \x7b").data,
       ("      path                = \"").data ++ (doc.vault.path.data ++ ("\"").data),
       ("      database_name_key   = \"").data ++
         (doc.vault.databaseNameKey.data ++ ("\"").data),
       ("      username_key        = \"").data ++
         (doc.vault.usernameKey.data ++ ("\"").data),
       ("      password_key        = \"").data ++
         (doc.vault.passwordKey.data ++ ("\"").data),
       ("      endpoint_output_key = \"").data ++
         (doc.vault.endpointOutputKey.data ++ ("\"").data),
       ("    \x7d").data] ++
      (((splitLines (extraSGRulesTemplate doc.extraSGRules).data).map
          (fun p => ("    ").data ++ p)) ++
       [("  \x7d").data, ("  ").data])))))

/-- The lines of `rdsFileTemplate`'s output (before the final appended
newline). -/
def rdsLines (doc : Spec) : List (List Char) :=
  ("module \"riiid_rds\" \x7b").data ::
    (([("  source = \"../../../../../modules/aws/rds\"").data,
       [],
       ("  project   = \"").data ++ (doc.project.data ++ ("\"").data),
       ("  component = \"").data ++ (doc.component.data ++ ("\"").data),
       ("  env       = \"").data ++ (doc.env.data ++ ("\"").data)] ++
      (((splitLines (nameOverrideFragment doc.nameOverride).data).map
          (fun p => ("  ").data ++ p)) ++
       ([("  engine_version = \"").data ++ (doc.engineVersion.data ++ ("\"").data),
         ("  ").data,
         ("  instances = \x7b").data] ++
        (((splitLines (instancesJoined doc).data).map
            (fun p => ("    ").data ++ p)) ++
         ([("  \x7d").data,
           [],
           ("  vault = \x7b").data,
           ("    path                = \"").data ++ (doc.vault.path.data ++ ("\"").data),
           ("    database_name_key   = \"").data ++
             (doc.vault.databaseNameKey.data ++ ("\"").data),
           ("    username_key        = \"").data ++
             (doc.vault.usernameKey.data ++ ("\"").data),
           ("    password_key        = \"").data ++
             (doc.vault.passwordKey.data ++ ("\"").data),
           ("    endpoint_output_key = \"").data ++
             (doc.vault.endpointOutputKey.data ++ ("\"").data),
           ("  \x7d").data] ++
          ((splitLines (extraSGRulesTemplate doc.extraSGRules).data).map
              (fun p => ("  ").data ++ p))))))) ++
     [("\x7d").data])

/-- All interpolated fields of the vault sub-spec are inert. -/
def inertVault (v : VaultSpec) : Bool :=
  inertStr v.path && inertStr v.databaseNameKey && inertStr v.usernameKey &&
  inertStr v.passwordKey && inertStr v.endpointOutputKey

/-- One instance entry: a clean key and inert values. -/
def inertInstance (kv : String × InstanceSpec) : Bool :=
  cleanStr kv.1 && inertStr kv.2.instanceClass &&
  inertStr (toString kv.2.promotionTier)

/-- All interpolated fields of a spec are clean enough for the closed
forms: keys clean, every other interpolated value inert. -/
def inertSpec (doc : Spec) : Bool :=
  inertStr doc.project && inertStr doc.component && inertStr doc.env &&
  inertStr doc.region && inertStr doc.engineVersion &&
  (match doc.nameOverride with | none => true | some s => inertStr s) &&
  doc.instances.all inertInstance &&
  inertVault doc.vault &&
  (match doc.extraSGRules with | none => true | some rules => rules.all inertSGRule)

/-! ## Line predicates and concrete inputs used by the claims -/

/-- `leadsWith p l`: the line `l` starts with the character sequence `p`. -/
def leadsWith : List Char → List Char → Bool
  | [], _ => true
  | _ :: _, [] => false
  | c :: cs, b :: bs => c == b && leadsWith cs bs

/-- A rendered module line carrying the `name_override` binding: at the
module body's 2-space indent, `name_override = ` followed by the value. -/
def isNameOverrideLine (l : List Char) : Bool :=
  leadsWith ("  name_override = ").data l

/-- A concrete vault block used by the concrete examples. -/
def exVault : VaultSpec :=
  { path := "secret/data/p1/c1/rds", databaseNameKey := "dbname",
    usernameKey := "user", passwordKey := "pass", endpointOutputKey := "endpoint" }

/-- A concrete well-formed spec used by the concrete examples. -/
def exSpec : Spec :=
  { region := "ap-northeast-2", project := "p1", component := "c1", env := "prod",
    nameOverride := none, engineVersion := "13.7",
    instances := [("db", { instanceClass := "db.r5.large", promotionTier := 0 })],
    vault := exVault, extraSGRules := none }

/-- The spec with document-order instance keys `["2", "1"]`, both array
indices, exhibiting the `Object.entries` reordering. -/
def cexSpec : Spec :=
  { region := "REG", project := "PRJ", component := "CMP", env := "ENV",
    nameOverride := none, engineVersion := "EV",
    instances := [("2", { instanceClass := "c2", promotionTier := 2 }),
                  ("1", { instanceClass := "c1", promotionTier := 1 })],
    vault := exVault, extraSGRules := none }

/-- The spec with `nameOverride` present but equal to the empty string. -/
def exSpecEmptyNO : Spec := { exSpec with nameOverride := some "" }

/-- The spec with `nameOverride` set to a non-empty string. -/
def exSpecNO : Spec := { exSpec with nameOverride := some "foo" }

/-- A concrete security rule with two cidr blocks and an explicit type. -/
def exRule : SGRuleSpec :=
  { type := some "egress", description := "office", fromPort := 5432,
    toPort := 5432, cidrBlocks := ["10.0.0.0/16", "10.1.0.0/16"] }

/-- The rule with `type` present but equal to the empty string. -/
def exRuleEmptyType : SGRuleSpec := { exRule with type := some "" }

/-- An oracle under which every filesystem call succeeds. -/
def exOracle : FsOracle := { writeOk := fun _ => true, rmOk := fun _ => true }

/-! ## Lemmas: clean values -/

theorem cleanChar_not_ws {c : Char} (h : cleanChar c = true) : jsWs c = false := by
  simp [cleanChar] at h
  simpa using h.1

theorem cleanChar_ne_newline {c : Char} (h : cleanChar c = true) : c ≠ '\n' := by
  intro hc
  subst hc
  simp [cleanChar, jsWs] at h

theorem cleanChar_ne_backslash {c : Char} (h : cleanChar c = true) : c ≠ '\\' := by
  simp [cleanChar] at h
  exact h.2

theorem cleanStr_all {s : String} (h : cleanStr s = true) :
    ∀ c ∈ s.data, cleanChar c = true := by
  simp [cleanStr, List.all_eq_true] at h
  exact h.2

theorem cleanStr_no_newline {s : String} (h : cleanStr s = true) : '\n' ∉ s.data := by
  intro hm
  exact cleanChar_ne_newline (cleanStr_all h _ hm) rfl

theorem cleanStr_no_backslash {s : String} (h : cleanStr s = true) : '\\' ∉ s.data := by
  intro hm
  exact cleanChar_ne_backslash (cleanStr_all h _ hm) rfl

theorem inertStr_no_newline {s : String} (h : inertStr s = true) : '\n' ∉ s.data := by
  intro hm
  simp only [inertStr, List.all_eq_true] at h
  have := h '\n' hm
  simp at this

theorem inertStr_no_backslash {s : String} (h : inertStr s = true) : '\\' ∉ s.data := by
  intro hm
  simp only [inertStr, List.all_eq_true] at h
  have := h '\\' hm
  simp at this

theorem cleanStr_inert {s : String} (h : cleanStr s = true) : inertStr s = true := by
  simp only [inertStr, List.all_eq_true]
  intro c hc
  have h1 := cleanStr_all h c hc
  have h2 := cleanChar_ne_newline h1
  have h3 := cleanChar_ne_backslash h1
  simp [h2, h3]

theorem cleanStr_head {s : String} (h : cleanStr s = true) :
    ∃ c t, s.data = c :: t ∧ jsWs c = false := by
  have h' := h
  simp [cleanStr] at h'
  obtain ⟨h1, h2⟩ := h'
  cases hs : s.data with
  | nil => simp [hs] at h1
  | cons c t =>
    refine ⟨c, t, rfl, cleanChar_not_ws ?_⟩
    exact cleanStr_all h c (by simp [hs])

/-! ## Lemmas: splitLines -/

theorem splitLines_ne_nil (s : List Char) : splitLines s ≠ [] := by
  induction s with
  | nil => simp [splitLines]
  | cons c rest ih =>
    by_cases h : c = '\n'
    · subst h; simp [splitLines]
    · simp only [splitLines, if_neg h]
      cases hs : splitLines rest with
      | nil => simp
      | cons l ls => simp

theorem splitLines_cons_newline (b : List Char) :
    splitLines ('\n' :: b) = [] :: splitLines b := by
  simp [splitLines]

theorem splitLines_cons_of_ne (c : Char) (b : List Char) (h : c ≠ '\n') :
    splitLines (c :: b) = (splitLines b).modifyHead (c :: ·) := by
  simp only [splitLines, if_neg h]
  cases hs : splitLines b with
  | nil => exact absurd hs (splitLines_ne_nil b)
  | cons l ls => simp [List.modifyHead]

theorem splitLines_append_no_newline (v b : List Char) (h : '\n' ∉ v) :
    splitLines (v ++ b) = (splitLines b).modifyHead (v ++ ·) := by
  induction v with
  | nil =>
    cases hs : splitLines b with
    | nil => exact absurd hs (splitLines_ne_nil b)
    | cons l ls => simp [hs, List.modifyHead]
  | cons c rest ih =>
    have hc : c ≠ '\n' := by intro hc; exact h (by simp [hc])
    have hr : '\n' ∉ rest := by intro hm; exact h (by simp [hm])
    rw [List.cons_append, splitLines_cons_of_ne c (rest ++ b) hc, ih hr]
    cases hs : splitLines b with
    | nil => exact absurd hs (splitLines_ne_nil b)
    | cons l ls => simp [List.modifyHead]

theorem splitLines_singleton (v : List Char) (h : '\n' ∉ v) :
    splitLines v = [v] := by
  have := splitLines_append_no_newline v [] h
  simpa [splitLines, List.modifyHead] using this

theorem splitLines_no_newline (s : List Char) :
    ∀ l ∈ splitLines s, '\n' ∉ l := by
  induction s with
  | nil =>
    intro l hl
    simp [splitLines] at hl
    simp [hl]
  | cons c rest ih =>
    intro l hl
    by_cases h : c = '\n'
    · subst h
      rw [splitLines_cons_newline] at hl
      rcases List.mem_cons.mp hl with h1 | h1
      · simp [h1]
      · exact ih l h1
    · rw [splitLines_cons_of_ne c rest h] at hl
      cases hs : splitLines rest with
      | nil => exact absurd hs (splitLines_ne_nil rest)
      | cons x xs =>
        rw [hs] at hl
        simp only [List.modifyHead] at hl
        rcases List.mem_cons.mp hl with h1 | h1
        · subst h1
          intro hm
          rcases List.mem_cons.mp hm with h2 | h2
          · exact h h2.symm
          · exact ih x (by simp [hs]) h2
        · exact ih l (by simp [hs, h1])

/-! ## Lemmas: takeWhile / dropWhile over appends -/

theorem takeWhile_append_of_all {p : Char → Bool} (a b : List Char)
    (h : ∀ c ∈ a, p c = true) :
    (a ++ b).takeWhile p = a ++ b.takeWhile p := by
  induction a with
  | nil => simp
  | cons c rest ih =>
    have hc : p c = true := h c (by simp)
    simp only [List.cons_append, List.takeWhile_cons, hc, if_true]
    rw [ih (fun x hx => h x (by simp [hx]))]

theorem takeWhile_append_of_not_all {p : Char → Bool} (a b : List Char)
    (h : ¬ ∀ c ∈ a, p c = true) :
    (a ++ b).takeWhile p = a.takeWhile p := by
  induction a with
  | nil => exact absurd (by simp) h
  | cons c rest ih =>
    by_cases hc : p c = true
    · simp only [List.cons_append, List.takeWhile_cons, hc, if_true]
      have : ¬ ∀ x ∈ rest, p x = true := by
        intro hall
        exact h (fun x hx => by
          rcases List.mem_cons.mp hx with h1 | h1
          · simpa [h1] using hc
          · exact hall x h1)
      rw [ih this]
    · simp only [List.cons_append, List.takeWhile_cons, hc]
      simp [hc]

theorem dropWhile_append_of_all {p : Char → Bool} (a b : List Char)
    (h : ∀ c ∈ a, p c = true) :
    (a ++ b).dropWhile p = b.dropWhile p := by
  induction a with
  | nil => simp
  | cons c rest ih =>
    have hc : p c = true := h c (by simp)
    simp only [List.cons_append, List.dropWhile_cons, hc, if_true]
    exact ih (fun x hx => h x (by simp [hx]))

theorem dropWhile_head_not {p : Char → Bool} (l : List Char) (a : Char)
    (h1 : l.head? = some a) (h2 : p a = false) :
    l.dropWhile p = l := by
  cases l with
  | nil => simp at h1
  | cons c rest =>
    simp at h1
    subst h1
    simp [List.dropWhile_cons, h2]

/-! ## Lemmas: intercalate -/

theorem intercalate_single (sep l : List Char) :
    List.intercalate sep [l] = l := by
  simp [List.intercalate]

theorem intercalate_cons₂ (sep l m : List Char) (rest : List (List Char)) :
    List.intercalate sep (l :: m :: rest) =
      l ++ sep ++ List.intercalate sep (m :: rest) := by
  simp [List.intercalate, List.intersperse_cons_cons]

theorem intercalate_cons_of_ne_nil (sep l : List Char) (rest : List (List Char))
    (h : rest ≠ []) :
    List.intercalate sep (l :: rest) = l ++ sep ++ List.intercalate sep rest := by
  cases rest with
  | nil => exact absurd rfl h
  | cons m tail => exact intercalate_cons₂ sep l m tail

/-! ## Lemmas: splitLines over general appends and intercalations -/

theorem dropLast_append_getLastD {α : Type} (l : List α) (d : α) (h : l ≠ []) :
    l.dropLast ++ [l.getLastD d] = l := by
  rw [List.getLastD_eq_getLast?, List.getLast?_eq_getLast l h]
  simp only [Option.getD_some]
  exact List.dropLast_append_getLast h

theorem splitLines_append (a b : List Char) :
    splitLines (a ++ b) =
      (splitLines a).dropLast ++
        ((splitLines a).getLastD [] ++ (splitLines b).headI) :: (splitLines b).tail := by
  induction a with
  | nil =>
    cases hs : splitLines b with
    | nil => exact absurd hs (splitLines_ne_nil b)
    | cons l ls => simp [splitLines, hs, List.headI]
  | cons c rest ih =>
    by_cases h : c = '\n'
    · subst h
      rw [List.cons_append, splitLines_cons_newline, splitLines_cons_newline, ih]
      cases hs : splitLines rest with
      | nil => exact absurd hs (splitLines_ne_nil rest)
      | cons l ls =>
        cases ls with
        | nil => simp [List.getLastD_cons]
        | cons m ms => simp [List.getLastD_cons]
    · rw [List.cons_append, splitLines_cons_of_ne c (rest ++ b) h,
        splitLines_cons_of_ne c rest h, ih]
      cases hs : splitLines rest with
      | nil => exact absurd hs (splitLines_ne_nil rest)
      | cons l ls =>
        cases ls with
        | nil => simp [List.modifyHead, List.getLastD_cons]
        | cons m ms => simp [List.modifyHead, List.getLastD_cons]

theorem splitLines_append_newline (a b : List Char) :
    splitLines (a ++ '\n' :: b) = splitLines a ++ splitLines b := by
  rw [splitLines_append a ('\n' :: b), splitLines_cons_newline]
  simp only [List.headI, List.tail, List.append_nil]
  conv_rhs => rw [← dropLast_append_getLastD (splitLines a) [] (splitLines_ne_nil a)]
  rw [List.append_assoc]
  simp [List.singleton_append]

theorem splitLines_intercalate_nl (parts : List (List Char)) (h : parts ≠ []) :
    splitLines (List.intercalate ['\n'] parts) =
      (parts.map splitLines).flatten := by
  induction parts with
  | nil => exact absurd rfl h
  | cons p ps ih =>
    cases ps with
    | nil => simp [intercalate_single]
    | cons q qs =>
      rw [intercalate_cons₂]
      rw [show (p ++ ['\n'] ++ List.intercalate ['\n'] (q :: qs)) =
        p ++ '\n' :: List.intercalate ['\n'] (q :: qs) by simp]
      rw [splitLines_append_newline, ih (by simp)]
      simp

/-! ## Lemmas: afterLastNewline / lineIndentTail / indentValue -/

theorem afterLastNewline_append_of_mem (a b : List Char) (h : '\n' ∈ b) :
    afterLastNewline (a ++ b) = afterLastNewline b := by
  unfold afterLastNewline
  rw [List.reverse_append]
  rw [takeWhile_append_of_not_all]
  intro hall
  have := hall '\n' (by simp [h])
  simp at this

theorem indentValue_of_no_newline (v cur : List Char) (h : '\n' ∉ v) :
    indentValue v cur = v := by
  unfold indentValue
  rw [splitLines_singleton v h, intercalate_single]

/-! ## Lemmas: replaceBackslashN is the identity without backslashes -/

theorem replaceBackslashN_of_no_backslash (s : List Char) (h : '\\' ∉ s) :
    replaceBackslashN s = s := by
  induction s with
  | nil => rfl
  | cons c rest ih =>
    have hc : c ≠ '\\' := by intro hcc; exact h (by simp [hcc])
    have hr : '\\' ∉ rest := by intro hm; exact h (by simp [hm])
    rw [replaceBackslashN.eq_2 c rest (fun _ h1 _ => hc h1), ih hr]

/-! ## Lemmas: trim -/

theorem dropTrailingWs_append_newline (a : List Char) :
    dropTrailingWs (a ++ ['\n']) = dropTrailingWs a := by
  unfold dropTrailingWs
  rw [List.reverse_append]
  simp [List.dropWhile_cons, jsWs]

theorem dropTrailingWs_of_last_not_ws (a : List Char) (d : Char)
    (h1 : a.getLast? = some d) (h2 : jsWs d = false) :
    dropTrailingWs a = a := by
  unfold dropTrailingWs
  rw [dropWhile_head_not a.reverse d (by rw [List.head?_reverse]; exact h1) h2]
  exact List.reverse_reverse a

theorem jsTrim_sandwich (m : List Char) (c d : Char)
    (hhead : m.head? = some c) (hc : jsWs c = false)
    (hlast : m.getLast? = some d) (hd : jsWs d = false) :
    jsTrim ('\n' :: (m ++ ['\n'])) = m := by
  unfold jsTrim
  rw [show List.dropWhile jsWs ('\n' :: (m ++ ['\n'])) =
      List.dropWhile jsWs (m ++ ['\n']) by simp [List.dropWhile_cons, jsWs]]
  cases m with
  | nil => simp at hhead
  | cons x xs =>
    have hx : x = c := by simpa using hhead
    subst hx
    rw [dropWhile_head_not ((x :: xs) ++ ['\n']) x (by simp) hc]
    rw [dropTrailingWs_append_newline]
    exact dropTrailingWs_of_last_not_ws (x :: xs) d hlast hd

/-! ## Lemmas: joinLines and splitLines are inverse on newline-free lines -/

theorem splitLines_joinLines (L : List (List Char)) (h : L ≠ [])
    (hnl : ∀ l ∈ L, '\n' ∉ l) :
    splitLines (joinLines L) = L := by
  induction L with
  | nil => exact absurd rfl h
  | cons l ls ih =>
    cases ls with
    | nil =>
      unfold joinLines
      rw [intercalate_single]
      exact splitLines_singleton l (hnl l (by simp))
    | cons m ms =>
      unfold joinLines
      rw [intercalate_cons₂]
      rw [show (l ++ ['\n'] ++ List.intercalate ['\n'] (m :: ms)) =
        l ++ '\n' :: List.intercalate ['\n'] (m :: ms) by simp]
      rw [splitLines_append_newline]
      rw [splitLines_singleton l (hnl l (by simp))]
      have := ih (by simp) (fun x hx => hnl x (by simp [hx]))
      unfold joinLines at this
      rw [this]
      simp

/-! ## Lemmas: the lines contributed by one multi-line interpolation

An interpolation point reached as `... '\n' :: ind ++ value-spot` with the
rest of the template continuing `'\n' :: B` contributes one line `ind ++ p`
for every line `p` of the interpolated value. -/

theorem splitLines_ind_intercalate (ind : List Char) (parts : List (List Char))
    (B : List Char) (hp : parts ≠ []) (hnl : ∀ p ∈ parts, '\n' ∉ p)
    (hind : '\n' ∉ ind) :
    splitLines (ind ++ List.intercalate ('\n' :: ind) parts ++ '\n' :: B) =
      parts.map (fun p => ind ++ p) ++ splitLines B := by
  induction parts with
  | nil => exact absurd rfl hp
  | cons p ps ih =>
    cases ps with
    | nil =>
      rw [intercalate_single]
      rw [splitLines_append_newline (ind ++ p) B]
      rw [splitLines_append_no_newline ind p hind,
        splitLines_singleton p (hnl p (by simp))]
      simp [List.modifyHead]
    | cons q qs =>
      rw [intercalate_cons_of_ne_nil _ _ _ (by simp)]
      have hassoc :
          ind ++ (p ++ ('\n' :: ind) ++ List.intercalate ('\n' :: ind) (q :: qs)) ++
              '\n' :: B =
            (ind ++ p) ++
              '\n' :: (ind ++ List.intercalate ('\n' :: ind) (q :: qs) ++ '\n' :: B) := by
        simp [List.append_assoc]
      rw [hassoc, splitLines_append_newline,
        ih (by simp) (fun x hx => hnl x (by simp [hx]))]
      rw [splitLines_append_no_newline ind p hind,
        splitLines_singleton p (hnl p (by simp))]
      simp [List.modifyHead]

/-! ## Lemmas: mindent -/

theorem optMin_none_left (b : Option Nat) : optMin none b = b := rfl

theorem optMin_assoc (a b c : Option Nat) :
    optMin (optMin a b) c = optMin a (optMin b c) := by
  cases a <;> cases b <;> cases c <;> simp [optMin, Nat.min_assoc]

theorem mindent_fold (L : List (List Char)) (i : Option Nat) :
    L.foldl (fun acc l => optMin acc (lineIndentLen l)) i = optMin i (mindentOf L) := by
  induction L generalizing i with
  | nil => cases i <;> simp [mindentOf, optMin]
  | cons l ls ih =>
    rw [List.foldl_cons, ih]
    unfold mindentOf
    rw [List.foldl_cons, ih (optMin none (lineIndentLen l))]
    rw [optMin_none_left, optMin_assoc]
    rfl

theorem mindentOf_cons (l : List Char) (L : List (List Char)) :
    mindentOf (l :: L) = optMin (lineIndentLen l) (mindentOf L) := by
  unfold mindentOf
  rw [List.foldl_cons]
  rw [mindent_fold L (optMin none (lineIndentLen l)), optMin_none_left]
  rfl

theorem mindentOf_append (A B : List (List Char)) :
    mindentOf (A ++ B) = optMin (mindentOf A) (mindentOf B) := by
  unfold mindentOf
  rw [List.foldl_append]
  rw [mindent_fold B (List.foldl (fun acc l => optMin acc (lineIndentLen l)) none A)]
  rfl

theorem optMin_some_left_of_bound (m : Nat) (X : Option Nat)
    (h : ∀ n, X = some n → m ≤ n) : optMin (some m) X = some m := by
  cases X with
  | none => rfl
  | some n =>
    simp only [optMin]
    rw [Nat.min_eq_left (h n rfl)]

theorem mindentOf_bound (L : List (List Char)) (m : Nat)
    (h : ∀ l ∈ L, ∀ n, lineIndentLen l = some n → m ≤ n) :
    ∀ n, mindentOf L = some n → m ≤ n := by
  induction L with
  | nil => intro n hn; simp [mindentOf] at hn
  | cons l ls ih =>
    intro n hn
    rw [mindentOf_cons] at hn
    cases hx : lineIndentLen l with
    | none =>
      rw [hx, optMin_none_left] at hn
      exact ih (fun x hxm => h x (by simp [hxm])) n hn
    | some a =>
      have ha : m ≤ a := h l (by simp) a hx
      rw [hx] at hn
      cases hy : mindentOf ls with
      | none =>
        rw [hy] at hn
        simp [optMin] at hn
        omega
      | some b =>
        have hb : m ≤ b := ih (fun x hxm => h x (by simp [hxm])) b hy
        rw [hy] at hn
        simp [optMin] at hn
        omega

/-! ## Lemmas: lineIndentLen on the line shapes of the templates -/

theorem lineIndentLen_append_left (a b : List Char) (h : a.dropWhile jsWs ≠ []) :
    lineIndentLen (a ++ b) = lineIndentLen a := by
  unfold lineIndentLen
  have hnot : ¬ ∀ c ∈ a, jsWs c = true := by
    intro hall
    exact h (List.dropWhile_eq_nil_iff.mpr hall)
  rw [takeWhile_append_of_not_all a b hnot]
  have hsplit : a.takeWhile jsWs ++ a.dropWhile jsWs = a :=
    List.takeWhile_append_dropWhile (p := jsWs) (l := a)
  have hlen : (a.takeWhile jsWs).length < a.length := by
    have := congrArg List.length hsplit
    simp only [List.length_append] at this
    have hpos : 0 < (a.dropWhile jsWs).length := List.length_pos.mpr h
    omega
  have hlen2 : (a.takeWhile jsWs).length < a.length + b.length := by omega
  simp only [List.length_append]
  simp [hlen, hlen2]

theorem lineIndentLen_ws_then (a k r : List Char) (c : Char)
    (ha : ∀ x ∈ a, jsWs x = true) (hk : k.head? = some c) (hc : jsWs c = false)
    (hne : a ≠ []) :
    lineIndentLen (a ++ (k ++ r)) = some a.length := by
  unfold lineIndentLen
  rw [takeWhile_append_of_all a (k ++ r) ha]
  cases k with
  | nil => simp at hk
  | cons x xs =>
    have hx : x = c := by simpa using hk
    subst hx
    rw [List.cons_append, List.takeWhile_cons_of_neg (by simp [hc])]
    simp only [List.append_nil, List.length_append, List.length_cons]
    have hpos : 0 < a.length := List.length_pos.mpr hne
    simp [hpos]

theorem lineIndentLen_ws_mono (a l : List Char)
    (ha : ∀ x ∈ a, jsWs x = true) :
    ∀ n, lineIndentLen (a ++ l) = some n → a.length ≤ n := by
  intro n h
  unfold lineIndentLen at h
  rw [takeWhile_append_of_all a l ha] at h
  by_cases hcond : 0 < (a ++ l.takeWhile jsWs).length ∧
      (a ++ l.takeWhile jsWs).length < (a ++ l).length
  · rw [if_pos (by
      simp only [Bool.and_eq_true, decide_eq_true_eq]
      exact ⟨hcond.1, hcond.2⟩)] at h
    have := Option.some.inj h
    rw [← this]
    simp
  · rw [if_neg (by
      intro hb
      simp only [Bool.and_eq_true, decide_eq_true_eq] at hb
      exact hcond ⟨hb.1, hb.2⟩)] at h
    exact absurd h (by simp)

/-! ## Lemmas: stripLine on the line shapes of the templates -/

theorem stripLine_nil (m : Nat) : stripLine m [] = [] := rfl

theorem stripLine_two (rest : List Char) :
    stripLine 2 (' ' :: ' ' :: rest) = rest := by
  simp [stripLine]

theorem stripLine_four (rest : List Char) :
    stripLine 4 (' ' :: ' ' :: ' ' :: ' ' :: rest) = rest := by
  simp [stripLine]

theorem stripLine_of_head_ne_space (m : Nat) (l : List Char)
    (h : l.head? ≠ some ' ') : stripLine m l = l := by
  simp [stripLine, h]

/-! ## Lemmas: joinLines -/

theorem joinLines_single (l : List Char) : joinLines [l] = l := by
  unfold joinLines
  exact intercalate_single _ _

theorem joinLines_cons_of_ne_nil (l : List Char) (rest : List (List Char))
    (h : rest ≠ []) :
    joinLines (l :: rest) = l ++ '\n' :: joinLines rest := by
  unfold joinLines
  rw [intercalate_cons_of_ne_nil _ _ _ h]
  simp

theorem joinLines_append (A B : List (List Char)) (hA : A ≠ []) (hB : B ≠ []) :
    joinLines (A ++ B) = joinLines A ++ '\n' :: joinLines B := by
  induction A with
  | nil => exact absurd rfl hA
  | cons l ls ih =>
    cases ls with
    | nil =>
      rw [List.cons_append, List.nil_append,
        joinLines_cons_of_ne_nil l B hB, joinLines_single]
    | cons m ms =>
      rw [List.cons_append,
        joinLines_cons_of_ne_nil l ((m :: ms) ++ B) (by simp),
        joinLines_cons_of_ne_nil l (m :: ms) (by simp),
        ih (by simp)]
      simp

theorem joinLines_map_ind (ind : List Char) (parts : List (List Char))
    (hp : parts ≠ []) :
    joinLines (parts.map (fun p => ind ++ p)) =
      ind ++ List.intercalate ('\n' :: ind) parts := by
  induction parts with
  | nil => exact absurd rfl hp
  | cons p ps ih =>
    cases ps with
    | nil =>
      rw [List.map_cons, List.map_nil, joinLines_single, intercalate_single]
    | cons q qs =>
      rw [List.map_cons, joinLines_cons_of_ne_nil _ _ (by simp),
        ih (by simp), intercalate_cons_of_ne_nil ('\n' :: ind) p (q :: qs) (by simp)]
      simp [List.append_assoc]

/-! ## Lemmas: getLast? over appended line pieces -/

theorem getLast?_append_right {α : Type} (a b : List α) (h : b ≠ []) :
    (a ++ b).getLast? = b.getLast? :=
  List.getLast?_append_of_ne_nil a h

theorem getLast?_cons_right {α : Type} (c : α) (l : List α) (h : l ≠ []) :
    (c :: l).getLast? = l.getLast? := by
  have := getLast?_append_right [c] l h
  simpa using this

/-! ## Lemmas: no backslash in a join of backslash-free lines -/

theorem no_backslash_joinLines (L : List (List Char))
    (h : ∀ l ∈ L, '\\' ∉ l) : '\\' ∉ joinLines L := by
  induction L with
  | nil => simp [joinLines, List.intercalate]
  | cons l ls ih =>
    cases ls with
    | nil =>
      rw [joinLines_single]
      exact h l (by simp)
    | cons m ms =>
      rw [joinLines_cons_of_ne_nil l (m :: ms) (by simp)]
      intro hm
      rcases List.mem_append.mp hm with h1 | h1
      · exact h l (by simp) h1
      · rcases List.mem_cons.mp h1 with h2 | h2
        · simp at h2
        · exact ih (fun x hx => h x (by simp [hx])) h2

/-! ## Lemmas: trimming a dedented join -/

theorem head?_joinLines_cons (l : List Char) (rest : List (List Char)) (c : Char)
    (hl : l.head? = some c) :
    (joinLines (l :: rest)).head? = some c := by
  cases rest with
  | nil => rw [joinLines_single]; exact hl
  | cons m ms =>
    rw [joinLines_cons_of_ne_nil l _ (by simp)]
    cases l with
    | nil => simp at hl
    | cons x xs => simpa using hl

theorem getLast?_joinLines_last (L : List (List Char)) (l : List Char) (d : Char)
    (hlast : L.getLast? = some l) (hd : l.getLast? = some d) :
    (joinLines L).getLast? = some d := by
  induction L with
  | nil => simp at hlast
  | cons x xs ih =>
    cases xs with
    | nil =>
      simp at hlast
      subst hlast
      rw [joinLines_single]
      exact hd
    | cons m ms =>
      rw [List.getLast?_cons_cons] at hlast
      have hJ := ih hlast
      have hne : joinLines (m :: ms) ≠ [] := by
        intro h0
        rw [h0] at hJ
        simp at hJ
      rw [joinLines_cons_of_ne_nil x (m :: ms) (by simp)]
      rw [getLast?_append_right x ('\n' :: joinLines (m :: ms)) (by simp)]
      rw [getLast?_cons_right '\n' (joinLines (m :: ms)) hne]
      exact hJ

/-- Trimming the dedented join: an empty first line, a middle block whose
first line starts and whose last line ends with non-whitespace, and an
empty last line; the trim keeps exactly the middle. -/
theorem jsTrim_dedented (MID : List (List Char)) (hM : MID ≠ [])
    (c : Char) (hc : jsWs c = false) (hhead : (joinLines MID).head? = some c)
    (d : Char) (hd : jsWs d = false) (hlast : (joinLines MID).getLast? = some d) :
    jsTrim (joinLines ([] :: (MID ++ [[]]))) = joinLines MID := by
  rw [joinLines_cons_of_ne_nil [] _ (by simp), List.nil_append]
  rw [joinLines_append MID [[]] hM (by simp)]
  rw [show joinLines [[]] = [] from rfl]
  exact jsTrim_sandwich (joinLines MID) c d hhead hc hlast hd

/-! ## Step equations of endentCore, and dedentL through a line list -/

theorem endentCore_nil (acc : List Char) (vs : List (List Char)) :
    endentCore acc [] vs = acc := rfl

theorem endentCore_cons_nil (acc c : List Char) (cs : List (List Char)) :
    endentCore acc (c :: cs) [] = endentCore (acc ++ c) cs [] := rfl

theorem endentCore_cons₂ (acc c : List Char) (cs : List (List Char))
    (v : List Char) (vs : List (List Char)) :
    endentCore acc (c :: cs) (v :: vs) =
      endentCore (acc ++ c ++ indentValue v (acc ++ c)) cs vs := rfl

theorem dedentL_of_lines (s : List Char) (PRE : List (List Char)) (m : Nat)
    (hs : splitLines s = PRE) (hm : mindentOf PRE = some m) :
    dedentL s = replaceBackslashN (jsTrim (joinLines (PRE.map (stripLine m)))) := by
  unfold dedentL
  rw [hs]
  simp only [hm]

theorem not_mem_append {α : Type} {a : α} {x y : List α}
    (hx : a ∉ x) (hy : a ∉ y) : a ∉ x ++ y :=
  fun h => (List.mem_append.mp h).elim hx hy

theorem data_mk (l : List Char) : (String.mk l).data = l := rfl

/-! ## The closed form of instanceTemplate -/

theorem lineIndentLen_nil : lineIndentLen [] = none := rfl

theorem mindentOf_nil : mindentOf [] = none := rfl

theorem instanceTemplate_raw (key : String) (spec : InstanceSpec)
    (hk : '\n' ∉ key.data) (hc : '\n' ∉ spec.instanceClass.data)
    (ht : '\n' ∉ (toString spec.promotionTier).data) :
    endentCore []
        (List.map String.data
          ["\n    ",
           " = \x7b\n      instance_class = \"",
           "\"\n      promotion_tier = ",
           "\n    \x7d\n  "])
        (List.map String.data [key, spec.instanceClass, toString spec.promotionTier]) =
      joinLines (preInstanceLines key spec) := by
  rw [List.map, List.map, List.map, List.map, List.map, List.map, List.map,
    List.map, List.map]
  rw [endentCore_cons₂, endentCore_cons₂, endentCore_cons₂, endentCore_cons_nil,
    endentCore_nil]
  rw [indentValue_of_no_newline key.data _ hk,
    indentValue_of_no_newline spec.instanceClass.data _ hc,
    indentValue_of_no_newline (toString spec.promotionTier).data _ ht]
  simp [preInstanceLines, joinLines_cons_of_ne_nil, joinLines_single,
    List.append_assoc]

theorem preInstanceLines_nl (key : String) (spec : InstanceSpec)
    (hk : cleanStr key = true) (hc : inertStr spec.instanceClass = true)
    (ht : inertStr (toString spec.promotionTier) = true) :
    ∀ l ∈ preInstanceLines key spec, '\n' ∉ l := by
  intro l hl
  unfold preInstanceLines at hl
  simp only [List.mem_cons] at hl
  rcases hl with h | h | h | h | h | h | h
  · subst h; simp
  · subst h
    exact not_mem_append (by decide)
      (not_mem_append (cleanStr_no_newline hk) (by decide))
  · subst h
    exact not_mem_append (by decide)
      (not_mem_append (inertStr_no_newline hc) (by decide))
  · subst h
    exact not_mem_append (by decide) (inertStr_no_newline ht)
  · subst h; decide
  · subst h; decide
  · simp at h

theorem instanceLines_no_backslash (key : String) (spec : InstanceSpec)
    (hk : cleanStr key = true) (hc : inertStr spec.instanceClass = true)
    (ht : inertStr (toString spec.promotionTier) = true) :
    ∀ l ∈ instanceLines key spec, '\\' ∉ l := by
  intro l hl
  unfold instanceLines at hl
  simp only [List.mem_cons] at hl
  rcases hl with h | h | h | h | h
  · subst h
    exact not_mem_append (cleanStr_no_backslash hk) (by decide)
  · subst h
    exact not_mem_append (by decide)
      (not_mem_append (inertStr_no_backslash hc) (by decide))
  · subst h
    exact not_mem_append (by decide) (inertStr_no_backslash ht)
  · subst h; decide
  · simp at h

theorem preInstanceLines_mindent (key : String) (spec : InstanceSpec)
    (hk : cleanStr key = true) :
    mindentOf (preInstanceLines key spec) = some 4 := by
  obtain ⟨kc, kt, hkdata, hkws⟩ := cleanStr_head hk
  unfold preInstanceLines
  rw [mindentOf_cons, mindentOf_cons, mindentOf_cons, mindentOf_cons,
    mindentOf_cons, mindentOf_cons, mindentOf_nil]
  rw [lineIndentLen_ws_then ("    ").data key.data (" = \x7b").data kc
    (by decide) (by rw [hkdata]; rfl) hkws (by decide)]
  rw [lineIndentLen_append_left ("      instance_class = \"").data _ (by decide)]
  rw [lineIndentLen_append_left ("      promotion_tier = ").data _ (by decide)]
  rw [show lineIndentLen ("      instance_class = \"").data = some 6 from by decide]
  rw [show lineIndentLen ("      promotion_tier = ").data = some 6 from by decide]
  rw [show lineIndentLen (("    \x7d").data) = some 4 from by decide]
  rw [show lineIndentLen (("  ").data) = none from by decide]
  rw [show (("    ").data).length = 4 from rfl]
  decide

theorem preInstanceLines_strip (key : String) (spec : InstanceSpec) :
    (preInstanceLines key spec).map (stripLine 4) =
      [] :: (instanceLines key spec ++ [[]]) := by
  unfold preInstanceLines instanceLines
  simp only [List.map_cons, List.map_nil, List.cons_append, List.nil_append,
    stripLine_four, stripLine_nil,
    show stripLine 4 [' ', ' '] = [] from by decide]

theorem instanceTemplate_data (key : String) (spec : InstanceSpec)
    (hk : cleanStr key = true) (hc : inertStr spec.instanceClass = true)
    (ht : inertStr (toString spec.promotionTier) = true) :
    (instanceTemplate key spec).data = joinLines (instanceLines key spec) := by
  obtain ⟨kc, kt, hkdata, hkws⟩ := cleanStr_head hk
  unfold instanceTemplate endent
  rw [data_mk]
  rw [instanceTemplate_raw key spec (cleanStr_no_newline hk)
    (inertStr_no_newline hc) (inertStr_no_newline ht)]
  rw [dedentL_of_lines _ (preInstanceLines key spec) 4
    (splitLines_joinLines _ (by simp [preInstanceLines])
      (preInstanceLines_nl key spec hk hc ht))
    (preInstanceLines_mindent key spec hk)]
  rw [preInstanceLines_strip key spec]
  have hhead : (joinLines (instanceLines key spec)).head? = some kc := by
    apply head?_joinLines_cons
    rw [hkdata]
    rfl
  have hlast : (joinLines (instanceLines key spec)).getLast? = some '}' := by
    apply getLast?_joinLines_last _ (("\x7d").data) '}'
    · unfold instanceLines
      rfl
    · decide
  rw [jsTrim_dedented (instanceLines key spec) (by simp [instanceLines])
    kc hkws hhead '}' (by decide) hlast]
  exact replaceBackslashN_of_no_backslash _
    (no_backslash_joinLines _ (instanceLines_no_backslash key spec hk hc ht))

/-! ## The closed form of sgRuleTemplate -/

theorem lineIndentTail_append_of_mem (a b : List Char) (h : '\n' ∈ b) :
    lineIndentTail (a ++ b) = lineIndentTail b := by
  unfold lineIndentTail
  rw [afterLastNewline_append_of_mem a b h]

theorem indentValue_via_tail (v cur ind : List Char) (h : lineIndentTail cur = ind) :
    indentValue v cur = List.intercalate ('\n' :: ind) (splitLines v) := by
  unfold indentValue
  rw [h]

theorem splitLines_chars_subset (s : List Char) :
    ∀ l ∈ splitLines s, ∀ c ∈ l, c ∈ s := by
  induction s with
  | nil =>
    intro l hl
    simp [splitLines] at hl
    simp [hl]
  | cons x rest ih =>
    intro l hl c hc
    by_cases hx : x = '\n'
    · subst hx
      rw [splitLines_cons_newline] at hl
      rcases List.mem_cons.mp hl with h1 | h1
      · subst h1; simp at hc
      · exact List.mem_cons_of_mem _ (ih l h1 c hc)
    · rw [splitLines_cons_of_ne x rest hx] at hl
      cases hs : splitLines rest with
      | nil => exact absurd hs (splitLines_ne_nil rest)
      | cons y ys =>
        rw [hs] at hl
        simp only [List.modifyHead] at hl
        rcases List.mem_cons.mp hl with h1 | h1
        · subst h1
          rcases List.mem_cons.mp hc with h2 | h2
          · simp [h2]
          · exact List.mem_cons_of_mem _ (ih y (by simp [hs]) c h2)
        · exact List.mem_cons_of_mem _ (ih l (by simp [hs, h1]) c hc)

theorem no_newline_of_not_mem {s : List Char} {l : List Char} {c : Char}
    (hsub : ∀ x ∈ l, x ∈ s) (h : c ∉ s) : c ∉ l :=
  fun hm => h (hsub c hm)

/-- No backslash anywhere in the joined cidr items of a rule whose blocks
are inert. -/
theorem cidrJoined_no_backslash (sgRule : SGRuleSpec)
    (hb : ∀ b ∈ sgRule.cidrBlocks, inertStr b = true) :
    '\\' ∉ (cidrJoined sgRule).data := by
  unfold cidrJoined joinNL
  show '\\' ∉ joinLines _
  apply no_backslash_joinLines
  intro l hl
  rcases List.mem_map.mp hl with ⟨s, hs, rfl⟩
  rcases List.mem_map.mp hs with ⟨b, hbm, rfl⟩
  rw [String.data_append, String.data_append]
  exact not_mem_append
    (not_mem_append (by decide) (inertStr_no_backslash (hb b hbm))) (by decide)

theorem strip4_ind8 (p : List Char) :
    stripLine 4 (("        ").data ++ p) = ("    ").data ++ p := by
  rw [show ("        ").data = ' ' :: ' ' :: ' ' :: ' ' :: ("    ").data from rfl]
  rw [List.cons_append, List.cons_append, List.cons_append, List.cons_append]
  exact stripLine_four _

theorem sgRuleTemplate_raw (sgRule : SGRuleSpec)
    (hT : '\n' ∉ (typeOrIngress sgRule.type).data)
    (hd : '\n' ∉ sgRule.description.data)
    (hf : '\n' ∉ (toString sgRule.fromPort).data)
    (hp : '\n' ∉ (toString sgRule.toPort).data) :
    endentCore []
        (List.map String.data
          ["\n    \x7b\n      type        = \"",
           "\"\n      description = \"",
           "\"\n      from_port   = ",
           "\n      to_port     = ",
           "\n      cidr_blocks = [\n        ",
           "\n      ]\n    \x7d,\n  "])
        (List.map String.data
          [typeOrIngress sgRule.type,
           sgRule.description,
           toString sgRule.fromPort,
           toString sgRule.toPort,
           cidrJoined sgRule]) =
      joinLines (preSgLines sgRule) := by
  rw [List.map, List.map, List.map, List.map, List.map, List.map, List.map,
    List.map, List.map, List.map, List.map, List.map, List.map]
  rw [endentCore_cons₂, endentCore_cons₂, endentCore_cons₂, endentCore_cons₂,
    endentCore_cons₂, endentCore_cons_nil, endentCore_nil]
  rw [indentValue_of_no_newline (typeOrIngress sgRule.type).data _ hT,
    indentValue_of_no_newline sgRule.description.data _ hd,
    indentValue_of_no_newline (toString sgRule.fromPort).data _ hf,
    indentValue_of_no_newline (toString sgRule.toPort).data _ hp]
  rw [indentValue_via_tail (cidrJoined sgRule).data _ (("        ").data)
    (by
      rw [lineIndentTail_append_of_mem _ _ (by decide)]
      decide)]
  unfold preSgLines
  rw [joinLines_append _ _ (by simp) (by simp)]
  rw [joinLines_append _ _
    (by
      intro h0
      rw [List.map_eq_nil] at h0
      exact splitLines_ne_nil _ h0)
    (by simp)]
  rw [joinLines_map_ind (("        ").data) _ (splitLines_ne_nil _)]
  simp [joinLines_cons_of_ne_nil, joinLines_single, List.append_assoc]

theorem preSgLines_nl (sgRule : SGRuleSpec)
    (hT : '\n' ∉ (typeOrIngress sgRule.type).data)
    (hd : '\n' ∉ sgRule.description.data)
    (hf : '\n' ∉ (toString sgRule.fromPort).data)
    (hp : '\n' ∉ (toString sgRule.toPort).data) :
    ∀ l ∈ preSgLines sgRule, '\n' ∉ l := by
  intro l hl
  unfold preSgLines at hl
  rcases List.mem_append.mp hl with h | h
  · simp only [List.mem_cons] at h
    rcases h with h | h | h | h | h | h | h | h
    · subst h; simp
    · subst h; decide
    · subst h
      exact not_mem_append (by decide) (not_mem_append hT (by decide))
    · subst h
      exact not_mem_append (by decide) (not_mem_append hd (by decide))
    · subst h
      exact not_mem_append (by decide) hf
    · subst h
      exact not_mem_append (by decide) hp
    · subst h; decide
    · simp at h
  · rcases List.mem_append.mp h with h | h
    · rcases List.mem_map.mp h with ⟨p, hpm, rfl⟩
      exact not_mem_append (by decide) (splitLines_no_newline _ p hpm)
    · simp only [List.mem_cons] at h
      rcases h with h | h | h | h
      · subst h; decide
      · subst h; decide
      · subst h; decide
      · simp at h

theorem preSgLines_mindent (sgRule : SGRuleSpec) :
    mindentOf (preSgLines sgRule) = some 4 := by
  unfold preSgLines
  rw [mindentOf_append, mindentOf_append]
  rw [mindentOf_cons, mindentOf_cons, mindentOf_cons, mindentOf_cons,
    mindentOf_cons, mindentOf_cons, mindentOf_cons, mindentOf_nil]
  rw [lineIndentLen_append_left ("      type        = \"").data _ (by decide)]
  rw [lineIndentLen_append_left ("      description = \"").data _ (by decide)]
  rw [lineIndentLen_append_left ("      from_port   = ").data _ (by decide)]
  rw [lineIndentLen_append_left ("      to_port     = ").data _ (by decide)]
  rw [show lineIndentLen (("    \x7b").data) = some 4 from by decide]
  rw [show lineIndentLen ("      type        = \"").data = some 6 from by decide]
  rw [show lineIndentLen ("      description = \"").data = some 6 from by decide]
  rw [show lineIndentLen ("      from_port   = ").data = some 6 from by decide]
  rw [show lineIndentLen ("      to_port     = ").data = some 6 from by decide]
  rw [show lineIndentLen ("      cidr_blocks = [").data = some 6 from by decide]
  rw [mindentOf_cons, mindentOf_cons, mindentOf_cons, mindentOf_nil]
  rw [show lineIndentLen (("      ]").data) = some 6 from by decide]
  rw [show lineIndentLen (("    \x7d,").data) = some 4 from by decide]
  rw [show lineIndentLen (("  ").data) = none from by decide]
  rw [show lineIndentLen ([] : List Char) = none from rfl]
  have hseg := mindentOf_bound
    ((splitLines (cidrJoined sgRule).data).map (fun p => ("        ").data ++ p)) 8
    (by
      intro l hl n hn
      rcases List.mem_map.mp hl with ⟨p, hpm, rfl⟩
      have := lineIndentLen_ws_mono (("        ").data) p (by decide) n hn
      simpa using this)
  cases hv : mindentOf
      ((splitLines (cidrJoined sgRule).data).map (fun p => ("        ").data ++ p)) with
  | none => decide
  | some k =>
    have hk := hseg k hv
    simp only [optMin, Option.some.injEq]
    omega

theorem preSgLines_strip (sgRule : SGRuleSpec) :
    (preSgLines sgRule).map (stripLine 4) =
      [] :: (sgLines sgRule ++ [[]]) := by
  unfold preSgLines sgLines
  rw [List.map_append, List.map_append, List.map_map]
  rw [List.map_congr_left (f := stripLine 4 ∘ fun p => ("        ").data ++ p)
    (g := fun p => ("    ").data ++ p) (fun p _ => strip4_ind8 p)]
  simp only [List.map_cons, List.map_nil, List.cons_append, List.nil_append,
    stripLine_four, stripLine_nil,
    show stripLine 4 [' ', ' '] = [] from by decide]
  simp [List.append_assoc]

theorem sgLines_no_backslash (sgRule : SGRuleSpec)
    (hT : '\\' ∉ (typeOrIngress sgRule.type).data)
    (hd : '\\' ∉ sgRule.description.data)
    (hf : '\\' ∉ (toString sgRule.fromPort).data)
    (hp : '\\' ∉ (toString sgRule.toPort).data)
    (hc : '\\' ∉ (cidrJoined sgRule).data) :
    ∀ l ∈ sgLines sgRule, '\\' ∉ l := by
  intro l hl
  unfold sgLines at hl
  rcases List.mem_cons.mp hl with h | h
  · subst h; decide
  · rcases List.mem_append.mp h with h | h
    · rcases List.mem_append.mp h with h | h
      · simp only [List.mem_cons] at h
        rcases h with h | h | h | h | h | h
        · subst h
          exact not_mem_append (by decide) (not_mem_append hT (by decide))
        · subst h
          exact not_mem_append (by decide) (not_mem_append hd (by decide))
        · subst h
          exact not_mem_append (by decide) hf
        · subst h
          exact not_mem_append (by decide) hp
        · subst h; decide
        · simp at h
      · rcases List.mem_append.mp h with h | h
        · rcases List.mem_map.mp h with ⟨p, hpm, rfl⟩
          apply not_mem_append (by decide)
          exact no_newline_of_not_mem (splitLines_chars_subset _ p hpm) hc
        · simp only [List.mem_cons] at h
          rcases h with h | h
          · subst h; decide
          · simp at h
    · simp only [List.mem_cons] at h
      rcases h with h | h
      · subst h; decide
      · simp at h

theorem sgRuleTemplate_data (sgRule : SGRuleSpec)
    (hT : inertStr (typeOrIngress sgRule.type) = true)
    (hd : inertStr sgRule.description = true)
    (hf : inertStr (toString sgRule.fromPort) = true)
    (hp : inertStr (toString sgRule.toPort) = true)
    (hb : ∀ b ∈ sgRule.cidrBlocks, inertStr b = true) :
    (sgRuleTemplate sgRule).data = joinLines (sgLines sgRule) := by
  unfold sgRuleTemplate endent
  rw [data_mk]
  rw [sgRuleTemplate_raw sgRule (inertStr_no_newline hT) (inertStr_no_newline hd)
    (inertStr_no_newline hf) (inertStr_no_newline hp)]
  rw [dedentL_of_lines _ (preSgLines sgRule) 4
    (splitLines_joinLines _ (by simp [preSgLines])
      (preSgLines_nl sgRule (inertStr_no_newline hT) (inertStr_no_newline hd)
        (inertStr_no_newline hf) (inertStr_no_newline hp)))
    (preSgLines_mindent sgRule)]
  rw [preSgLines_strip sgRule]
  have hhead : (joinLines (sgLines sgRule)).head? = some '{' := by
    unfold sgLines
    exact head?_joinLines_cons _ _ _ rfl
  have hlast : (joinLines (sgLines sgRule)).getLast? = some ',' := by
    apply getLast?_joinLines_last _ (("\x7d,").data) ','
    · unfold sgLines
      rw [getLast?_cons_right _ _ (by simp)]
      rw [getLast?_append_right _ _ (by simp)]
      rfl
    · decide
  rw [jsTrim_dedented (sgLines sgRule) (by simp [sgLines])
    '{' (by decide) hhead ',' (by decide) hlast]
  exact replaceBackslashN_of_no_backslash _
    (no_backslash_joinLines _
      (sgLines_no_backslash sgRule (inertStr_no_backslash hT)
        (inertStr_no_backslash hd) (inertStr_no_backslash hf)
        (inertStr_no_backslash hp) (cidrJoined_no_backslash sgRule hb)))

/-! ## The closed form of extraSGRulesTemplate -/

theorem inertSGRule_parts {r : SGRuleSpec} (h : inertSGRule r = true) :
    inertStr (typeOrIngress r.type) = true ∧ inertStr r.description = true ∧
    inertStr (toString r.fromPort) = true ∧ inertStr (toString r.toPort) = true ∧
    ∀ b ∈ r.cidrBlocks, inertStr b = true := by
  simp only [inertSGRule, Bool.and_eq_true, List.all_eq_true] at h
  exact ⟨h.1.1.1.1, h.1.1.1.2, h.1.1.2, h.1.2, h.2⟩

theorem sgJoined_no_backslash (rules : List SGRuleSpec)
    (hr : ∀ r ∈ rules, inertSGRule r = true) :
    '\\' ∉ (sgJoined rules).data := by
  unfold sgJoined joinNL
  show '\\' ∉ joinLines _
  apply no_backslash_joinLines
  intro l hl
  rcases List.mem_map.mp hl with ⟨s, hs, rfl⟩
  rcases List.mem_map.mp hs with ⟨r, hrm, rfl⟩
  obtain ⟨hT, hd, hf, hp, hb⟩ := inertSGRule_parts (hr r hrm)
  rw [sgRuleTemplate_data r hT hd hf hp hb]
  exact no_backslash_joinLines _
    (sgLines_no_backslash r (inertStr_no_backslash hT) (inertStr_no_backslash hd)
      (inertStr_no_backslash hf) (inertStr_no_backslash hp)
      (cidrJoined_no_backslash r hb))

theorem strip4_ind6 (p : List Char) :
    stripLine 4 (("      ").data ++ p) = ("  ").data ++ p := by
  rw [show ("      ").data = ' ' :: ' ' :: ' ' :: ' ' :: ("  ").data from rfl]
  rw [List.cons_append, List.cons_append, List.cons_append, List.cons_append]
  exact stripLine_four _

theorem extraSG_raw (rules : List SGRuleSpec) :
    endentCore []
        (List.map String.data
          ["\n    extra_sg_rules = [\n      ",
           "\n    ]\n  "])
        (List.map String.data [sgJoined rules]) =
      joinLines (preExtraLines rules) := by
  rw [List.map, List.map, List.map, List.map, List.map]
  rw [endentCore_cons₂, endentCore_cons_nil, endentCore_nil]
  rw [indentValue_via_tail (sgJoined rules).data _ (("      ").data)
    (by
      rw [lineIndentTail_append_of_mem _ _ (by decide)]
      decide)]
  unfold preExtraLines
  rw [joinLines_append _ _ (by simp)
    (by
      intro h0
      rcases List.append_eq_nil.mp h0 with ⟨h1, _⟩
      rw [List.map_eq_nil] at h1
      exact splitLines_ne_nil _ h1)]
  rw [joinLines_append _ _
    (by
      intro h0
      rw [List.map_eq_nil] at h0
      exact splitLines_ne_nil _ h0)
    (by simp)]
  rw [joinLines_map_ind (("      ").data) _ (splitLines_ne_nil _)]
  simp [joinLines_cons_of_ne_nil, joinLines_single, List.append_assoc]

theorem preExtraLines_nl (rules : List SGRuleSpec) :
    ∀ l ∈ preExtraLines rules, '\n' ∉ l := by
  intro l hl
  unfold preExtraLines at hl
  rcases List.mem_append.mp hl with h | h
  · simp only [List.mem_cons] at h
    rcases h with h | h | h
    · subst h; simp
    · subst h; decide
    · simp at h
  · rcases List.mem_append.mp h with h | h
    · rcases List.mem_map.mp h with ⟨p, hpm, rfl⟩
      exact not_mem_append (by decide) (splitLines_no_newline _ p hpm)
    · simp only [List.mem_cons] at h
      rcases h with h | h | h
      · subst h; decide
      · subst h; decide
      · simp at h

theorem preExtraLines_mindent (rules : List SGRuleSpec) :
    mindentOf (preExtraLines rules) = some 4 := by
  unfold preExtraLines
  rw [mindentOf_append, mindentOf_append]
  rw [mindentOf_cons, mindentOf_cons, mindentOf_nil]
  rw [show lineIndentLen ([] : List Char) = none from rfl]
  rw [show lineIndentLen ("    extra_sg_rules = [").data = some 4 from by decide]
  rw [mindentOf_cons, mindentOf_cons, mindentOf_nil]
  rw [show lineIndentLen (("    ]").data) = some 4 from by decide]
  rw [show lineIndentLen (("  ").data) = none from by decide]
  have hseg := mindentOf_bound
    ((splitLines (sgJoined rules).data).map (fun p => ("      ").data ++ p)) 6
    (by
      intro l hl n hn
      rcases List.mem_map.mp hl with ⟨p, hpm, rfl⟩
      have := lineIndentLen_ws_mono (("      ").data) p (by decide) n hn
      simpa using this)
  cases hv : mindentOf
      ((splitLines (sgJoined rules).data).map (fun p => ("      ").data ++ p)) with
  | none => decide
  | some k =>
    have hk := hseg k hv
    simp only [optMin, Option.some.injEq]
    omega

theorem preExtraLines_strip (rules : List SGRuleSpec) :
    (preExtraLines rules).map (stripLine 4) =
      [] :: (extraLines rules ++ [[]]) := by
  unfold preExtraLines extraLines
  rw [List.map_append, List.map_append, List.map_map]
  rw [List.map_congr_left (f := stripLine 4 ∘ fun p => ("      ").data ++ p)
    (g := fun p => ("  ").data ++ p) (fun p _ => strip4_ind6 p)]
  simp only [List.map_cons, List.map_nil, List.cons_append, List.nil_append,
    stripLine_four, stripLine_nil,
    show stripLine 4 [' ', ' '] = [] from by decide]
  simp [List.append_assoc]

theorem extraLines_no_backslash (rules : List SGRuleSpec)
    (hsg : '\\' ∉ (sgJoined rules).data) :
    ∀ l ∈ extraLines rules, '\\' ∉ l := by
  intro l hl
  unfold extraLines at hl
  rcases List.mem_cons.mp hl with h | h
  · subst h; decide
  · rcases List.mem_append.mp h with h | h
    · rcases List.mem_map.mp h with ⟨p, hpm, rfl⟩
      apply not_mem_append (by decide)
      exact no_newline_of_not_mem (splitLines_chars_subset _ p hpm) hsg
    · simp only [List.mem_cons] at h
      rcases h with h | h
      · subst h; decide
      · simp at h

theorem extraSGRulesTemplate_data (rules : List SGRuleSpec)
    (hne : rules ≠ [])
    (hr : ∀ r ∈ rules, inertSGRule r = true) :
    (extraSGRulesTemplate (some rules)).data = joinLines (extraLines rules) := by
  simp only [extraSGRulesTemplate]
  rw [if_neg (by
    intro h0
    exact hne (List.length_eq_zero.mp h0))]
  unfold endent
  rw [data_mk]
  rw [extraSG_raw rules]
  rw [dedentL_of_lines _ (preExtraLines rules) 4
    (splitLines_joinLines _ (by simp [preExtraLines]) (preExtraLines_nl rules))
    (preExtraLines_mindent rules)]
  rw [preExtraLines_strip rules]
  have hhead : (joinLines (extraLines rules)).head? = some 'e' := by
    unfold extraLines
    exact head?_joinLines_cons _ _ _ rfl
  have hlast : (joinLines (extraLines rules)).getLast? = some ']' := by
    apply getLast?_joinLines_last _ (("]").data) ']'
    · unfold extraLines
      rw [getLast?_cons_right _ _ (by simp)]
      rw [getLast?_append_right _ _ (by simp)]
      rfl
    · decide
  rw [jsTrim_dedented (extraLines rules) (by simp [extraLines])
    'e' (by decide) hhead ']' (by decide) hlast]
  exact replaceBackslashN_of_no_backslash _
    (no_backslash_joinLines _
      (extraLines_no_backslash rules (sgJoined_no_backslash rules hr)))

/-! ## The closed form of configFileTemplate -/

theorem jsTrim_dedented_noblank (MID : List (List Char)) (hM : MID ≠ [])
    (c : Char) (hc : jsWs c = false) (hhead : (joinLines MID).head? = some c)
    (d : Char) (hd : jsWs d = false) (hlast : (joinLines MID).getLast? = some d) :
    jsTrim (joinLines ([] :: MID)) = joinLines MID := by
  rw [joinLines_cons_of_ne_nil [] _ hM, List.nil_append]
  unfold jsTrim
  rw [show List.dropWhile jsWs ('\n' :: joinLines MID) =
      List.dropWhile jsWs (joinLines MID) from by
    simp [List.dropWhile_cons, jsWs]]
  rw [dropWhile_head_not _ c hhead hc]
  exact dropTrailingWs_of_last_not_ws _ d hlast hd

set_option maxRecDepth 4000 in
theorem configFileTemplate_raw (doc : Spec)
    (he : '\n' ∉ doc.env.data) (hp : '\n' ∉ doc.project.data)
    (hc : '\n' ∉ doc.component.data) (hr : '\n' ∉ doc.region.data) :
    endentCore []
        (List.map String.data
          ["\n    terraform \x7b\n      required_version = \">= 1.0.0\"\n\n      backend \"s3\" \x7b\n        bucket = \"riiid-aws-service-",
           "-terraform-1.0.0\"\n        key    = \"service/",
           "/",
           "/rds_generated/tfstate\"\n        region = \"",
           "\"\n      \x7d\n    \x7d\n\n    module \"const\" \x7b source = \"../../../../../const\" \x7d\n\n    provider \"vault\" \x7b\n      address = module.const.vault.addr\n    \x7d\n\n    provider \"aws\" \x7b\n      region = \"",
           "\"\n    \x7d"])
        (List.map String.data
          [doc.env, doc.project, doc.component, doc.region, doc.region]) =
      joinLines (preConfigLines doc) := by
  rw [List.map, List.map, List.map, List.map, List.map, List.map, List.map,
    List.map, List.map, List.map, List.map, List.map, List.map]
  rw [endentCore_cons₂, endentCore_cons₂, endentCore_cons₂, endentCore_cons₂,
    endentCore_cons₂, endentCore_cons_nil, endentCore_nil]
  rw [indentValue_of_no_newline doc.env.data _ he,
    indentValue_of_no_newline doc.project.data _ hp,
    indentValue_of_no_newline doc.component.data _ hc]
  rw [indentValue_of_no_newline doc.region.data _ hr,
    indentValue_of_no_newline doc.region.data _ hr]
  simp [preConfigLines, joinLines_cons_of_ne_nil, joinLines_single,
    List.append_assoc]

theorem preConfigLines_nl (doc : Spec)
    (he : '\n' ∉ doc.env.data) (hp : '\n' ∉ doc.project.data)
    (hc : '\n' ∉ doc.component.data) (hr : '\n' ∉ doc.region.data) :
    ∀ l ∈ preConfigLines doc, '\n' ∉ l := by
  intro l hl
  unfold preConfigLines at hl
  simp only [List.mem_cons] at hl
  rcases hl with h | h | h | h | h | h | h | h | h | h | h | h | h | h | h | h | h | h | h | h | h
  · subst h; simp
  · subst h; decide
  · subst h; decide
  · subst h; simp
  · subst h; decide
  · subst h
    exact not_mem_append (by decide) (not_mem_append he (by decide))
  · subst h
    exact not_mem_append (by decide)
      (not_mem_append hp
        (not_mem_append (by decide) (not_mem_append hc (by decide))))
  · subst h
    exact not_mem_append (by decide) (not_mem_append hr (by decide))
  · subst h; decide
  · subst h; decide
  · subst h; simp
  · subst h; decide
  · subst h; simp
  · subst h; decide
  · subst h; decide
  · subst h; decide
  · subst h; simp
  · subst h; decide
  · subst h
    exact not_mem_append (by decide) (not_mem_append hr (by decide))
  · subst h; decide
  · simp at h

theorem preConfigLines_mindent (doc : Spec) :
    mindentOf (preConfigLines doc) = some 4 := by
  unfold preConfigLines
  rw [mindentOf_cons, mindentOf_cons, mindentOf_cons, mindentOf_cons,
    mindentOf_cons, mindentOf_cons, mindentOf_cons, mindentOf_cons,
    mindentOf_cons, mindentOf_cons, mindentOf_cons, mindentOf_cons,
    mindentOf_cons, mindentOf_cons, mindentOf_cons, mindentOf_cons,
    mindentOf_cons, mindentOf_cons, mindentOf_cons, mindentOf_cons,
    mindentOf_nil]
  rw [lineIndentLen_append_left ("        bucket = \"riiid-aws-service-").data _
    (by decide)]
  rw [lineIndentLen_append_left ("        key    = \"service/").data _ (by decide)]
  rw [lineIndentLen_append_left ("        region = \"").data _ (by decide)]
  rw [lineIndentLen_append_left ("      region = \"").data _ (by decide)]
  rw [show lineIndentLen ([] : List Char) = none from rfl]
  rw [show lineIndentLen ("    terraform \x7b").data = some 4 from by decide]
  rw [show lineIndentLen ("      required_version = \">= 1.0.0\"").data = some 6
    from by decide]
  rw [show lineIndentLen ("      backend \"s3\" \x7b").data = some 6 from by decide]
  rw [show lineIndentLen ("        bucket = \"riiid-aws-service-").data = some 8
    from by decide]
  rw [show lineIndentLen ("        key    = \"service/").data = some 8 from by decide]
  rw [show lineIndentLen ("        region = \"").data = some 8 from by decide]
  rw [show lineIndentLen ("      \x7d").data = some 6 from by decide]
  rw [show lineIndentLen ("    \x7d").data = some 4 from by decide]
  rw [show lineIndentLen
    ("    module \"const\" \x7b source = \"../../../../../const\" \x7d").data = some 4
    from by decide]
  rw [show lineIndentLen ("    provider \"vault\" \x7b").data = some 4 from by decide]
  rw [show lineIndentLen ("      address = module.const.vault.addr").data = some 6
    from by decide]
  rw [show lineIndentLen ("    provider \"aws\" \x7b").data = some 4 from by decide]
  rw [show lineIndentLen ("      region = \"").data = some 6 from by decide]
  decide

theorem preConfigLines_strip (doc : Spec) :
    (preConfigLines doc).map (stripLine 4) = [] :: configLines doc := by
  unfold preConfigLines configLines
  simp only [List.map_cons, List.map_nil, List.cons_append, List.nil_append,
    stripLine_four, stripLine_nil]

theorem configLines_no_backslash (doc : Spec)
    (he : '\\' ∉ doc.env.data) (hp : '\\' ∉ doc.project.data)
    (hc : '\\' ∉ doc.component.data) (hr : '\\' ∉ doc.region.data) :
    ∀ l ∈ configLines doc, '\\' ∉ l := by
  intro l hl
  unfold configLines at hl
  rcases List.mem_cons.mp hl with h | h
  · subst h; decide
  · rcases List.mem_append.mp h with h | h
    · simp only [List.mem_cons] at h
      rcases h with h | h | h | h | h | h | h | h | h | h | h | h | h | h | h | h | h | h
      · subst h; decide
      · subst h; simp
      · subst h; decide
      · subst h
        exact not_mem_append (by decide) (not_mem_append he (by decide))
      · subst h
        exact not_mem_append (by decide)
          (not_mem_append hp
            (not_mem_append (by decide) (not_mem_append hc (by decide))))
      · subst h
        exact not_mem_append (by decide) (not_mem_append hr (by decide))
      · subst h; decide
      · subst h; decide
      · subst h; simp
      · subst h; decide
      · subst h; simp
      · subst h; decide
      · subst h; decide
      · subst h; decide
      · subst h; simp
      · subst h; decide
      · subst h
        exact not_mem_append (by decide) (not_mem_append hr (by decide))
      · simp at h
    · simp only [List.mem_cons] at h
      rcases h with h | h
      · subst h; decide
      · simp at h

theorem configFileTemplate_data (doc : Spec)
    (he : inertStr doc.env = true) (hp : inertStr doc.project = true)
    (hc : inertStr doc.component = true) (hr : inertStr doc.region = true) :
    (configFileTemplate doc).data = joinLines (configLines doc) ++ ['\n'] := by
  unfold configFileTemplate
  rw [String.data_append]
  unfold endent
  rw [data_mk]
  rw [configFileTemplate_raw doc (inertStr_no_newline he) (inertStr_no_newline hp)
    (inertStr_no_newline hc) (inertStr_no_newline hr)]
  rw [dedentL_of_lines _ (preConfigLines doc) 4
    (splitLines_joinLines _ (by simp [preConfigLines])
      (preConfigLines_nl doc (inertStr_no_newline he) (inertStr_no_newline hp)
        (inertStr_no_newline hc) (inertStr_no_newline hr)))
    (preConfigLines_mindent doc)]
  rw [preConfigLines_strip doc]
  have hhead : (joinLines (configLines doc)).head? = some 't' := by
    unfold configLines
    exact head?_joinLines_cons _ _ _ rfl
  have hlast : (joinLines (configLines doc)).getLast? = some '}' := by
    apply getLast?_joinLines_last _ (("\x7d").data) '}'
    · unfold configLines
      rw [getLast?_cons_right _ _ (by simp)]
      rw [getLast?_append_right _ _ (by simp)]
      rfl
    · decide
  rw [jsTrim_dedented_noblank (configLines doc) (by simp [configLines])
    't' (by decide) hhead '}' (by decide) hlast]
  rw [replaceBackslashN_of_no_backslash _
    (no_backslash_joinLines _
      (configLines_no_backslash doc (inertStr_no_backslash he)
        (inertStr_no_backslash hp) (inertStr_no_backslash hc)
        (inertStr_no_backslash hr)))]

/-! ## The closed form of rdsFileTemplate -/

theorem append_ne_nil_right {α : Type} (a b : List α) (h : b ≠ []) :
    a ++ b ≠ [] := by
  intro h0
  rcases List.append_eq_nil.mp h0 with ⟨_, h2⟩
  exact h h2

theorem map_splitLines_ne_nil (f : List Char → List Char) (s : List Char) :
    (splitLines s).map f ≠ [] := by
  intro h0
  rw [List.map_eq_nil] at h0
  exact splitLines_ne_nil s h0

theorem inertVault_parts {v : VaultSpec} (h : inertVault v = true) :
    inertStr v.path = true ∧ inertStr v.databaseNameKey = true ∧
    inertStr v.usernameKey = true ∧ inertStr v.passwordKey = true ∧
    inertStr v.endpointOutputKey = true := by
  simp only [inertVault, Bool.and_eq_true] at h
  exact ⟨h.1.1.1.1, h.1.1.1.2, h.1.1.2, h.1.2, h.2⟩

theorem inertInstance_parts {kv : String × InstanceSpec}
    (h : inertInstance kv = true) :
    cleanStr kv.1 = true ∧ inertStr kv.2.instanceClass = true ∧
    inertStr (toString kv.2.promotionTier) = true := by
  simp only [inertInstance, Bool.and_eq_true] at h
  exact ⟨h.1.1, h.1.2, h.2⟩

theorem inertSpec_parts {doc : Spec} (h : inertSpec doc = true) :
    inertStr doc.project = true ∧ inertStr doc.component = true ∧
    inertStr doc.env = true ∧ inertStr doc.region = true ∧
    inertStr doc.engineVersion = true ∧
    (∀ s, doc.nameOverride = some s → inertStr s = true) ∧
    (∀ kv ∈ doc.instances, inertInstance kv = true) ∧
    inertVault doc.vault = true ∧
    (∀ rules, doc.extraSGRules = some rules → ∀ r ∈ rules, inertSGRule r = true) := by
  simp only [inertSpec, Bool.and_eq_true, List.all_eq_true] at h
  refine ⟨h.1.1.1.1.1.1.1.1, h.1.1.1.1.1.1.1.2, h.1.1.1.1.1.1.2,
    h.1.1.1.1.1.2, h.1.1.1.1.2, ?_, h.1.1.2, h.1.2, ?_⟩
  · intro s hs
    have hx := h.1.1.1.2
    rw [hs] at hx
    exact hx
  · intro rules hrules r hr
    have hx := h.2
    rw [hrules] at hx
    have hx2 : rules.all inertSGRule = true := hx
    rw [List.all_eq_true] at hx2
    exact hx2 r hr

theorem mem_of_mem_insertSorted (z x : String × InstanceSpec)
    (l : List (String × InstanceSpec)) (h : z ∈ insertSorted x l) :
    z = x ∨ z ∈ l := by
  induction l with
  | nil => simpa [insertSorted] using h
  | cons y ys ih =>
    unfold insertSorted at h
    by_cases hc : keyNat x ≤ keyNat y
    · rw [if_pos hc] at h
      rcases List.mem_cons.mp h with h1 | h1
      · exact Or.inl h1
      · exact Or.inr h1
    · rw [if_neg hc] at h
      rcases List.mem_cons.mp h with h1 | h1
      · exact Or.inr (by simp [h1])
      · rcases ih h1 with h2 | h2
        · exact Or.inl h2
        · exact Or.inr (by simp [h2])

theorem mem_of_mem_sortByKeyNat (z : String × InstanceSpec)
    (l : List (String × InstanceSpec)) (h : z ∈ sortByKeyNat l) : z ∈ l := by
  induction l with
  | nil => simpa [sortByKeyNat] using h
  | cons x xs ih =>
    have hx : sortByKeyNat (x :: xs) = insertSorted x (sortByKeyNat xs) := rfl
    rw [hx] at h
    rcases mem_of_mem_insertSorted z x (sortByKeyNat xs) h with h1 | h1
    · simp [h1]
    · exact List.mem_cons_of_mem _ (ih h1)

theorem mem_of_mem_jsEntries (z : String × InstanceSpec)
    (m : List (String × InstanceSpec)) (h : z ∈ jsEntries m) : z ∈ m := by
  unfold jsEntries at h
  rcases List.mem_append.mp h with h1 | h1
  · exact List.mem_of_mem_filter (mem_of_mem_sortByKeyNat z _ h1)
  · exact List.mem_of_mem_filter h1

theorem instancesJoined_no_backslash (doc : Spec)
    (hin : ∀ kv ∈ doc.instances, inertInstance kv = true) :
    '\\' ∉ (instancesJoined doc).data := by
  unfold instancesJoined joinNL
  show '\\' ∉ joinLines _
  apply no_backslash_joinLines
  intro l hl
  rcases List.mem_map.mp hl with ⟨s, hs, rfl⟩
  rcases List.mem_map.mp hs with ⟨kv, hkv, rfl⟩
  obtain ⟨hk, hc, ht⟩ := inertInstance_parts (hin kv (mem_of_mem_jsEntries kv _ hkv))
  rw [instanceTemplate_data kv.1 kv.2 hk hc ht]
  exact no_backslash_joinLines _ (instanceLines_no_backslash kv.1 kv.2 hk hc ht)

theorem nameOverrideFragment_no_backslash (no : Option String)
    (h : ∀ s, no = some s → inertStr s = true) :
    '\\' ∉ (nameOverrideFragment no).data := by
  cases no with
  | none => simp [nameOverrideFragment]
  | some s =>
    simp only [nameOverrideFragment]
    by_cases hs : s = ""
    · rw [if_pos hs]
      simp
    · rw [if_neg hs]
      rw [String.data_append, String.data_append]
      exact not_mem_append
        (not_mem_append (by decide) (inertStr_no_backslash (h s rfl))) (by decide)

theorem extraSGRulesTemplate_no_backslash (x : Option (List SGRuleSpec))
    (h : ∀ rules, x = some rules → ∀ r ∈ rules, inertSGRule r = true) :
    '\\' ∉ (extraSGRulesTemplate x).data := by
  cases x with
  | none => simp [extraSGRulesTemplate]
  | some rules =>
    cases rules with
    | nil =>
      show '\\' ∉ (extraSGRulesTemplate (some [])).data
      rw [show extraSGRulesTemplate (some []) = "" from rfl]
      simp
    | cons r rs =>
      rw [extraSGRulesTemplate_data (r :: rs) (by simp) (h (r :: rs) rfl)]
      exact no_backslash_joinLines _
        (extraLines_no_backslash (r :: rs)
          (sgJoined_no_backslash (r :: rs) (h (r :: rs) rfl)))

theorem strip2_ind4 (p : List Char) :
    stripLine 2 (("    ").data ++ p) = ("  ").data ++ p := by
  rw [show ("    ").data = ' ' :: ' ' :: ("  ").data from rfl]
  rw [List.cons_append, List.cons_append]
  exact stripLine_two _

theorem strip2_ind6 (p : List Char) :
    stripLine 2 (("      ").data ++ p) = ("    ").data ++ p := by
  rw [show ("      ").data = ' ' :: ' ' :: ("    ").data from rfl]
  rw [List.cons_append, List.cons_append]
  exact stripLine_two _

set_option maxRecDepth 8000 in
theorem rdsFileTemplate_raw (doc : Spec)
    (hp : '\n' ∉ doc.project.data) (hc : '\n' ∉ doc.component.data)
    (he : '\n' ∉ doc.env.data) (hev : '\n' ∉ doc.engineVersion.data)
    (hv1 : '\n' ∉ doc.vault.path.data) (hv2 : '\n' ∉ doc.vault.databaseNameKey.data)
    (hv3 : '\n' ∉ doc.vault.usernameKey.data) (hv4 : '\n' ∉ doc.vault.passwordKey.data)
    (hv5 : '\n' ∉ doc.vault.endpointOutputKey.data) :
    endentCore []
        (List.map String.data
          ["\n  module \"riiid_rds\" \x7b\n    source = \"../../../../../modules/aws/rds\"\n\n    project   = \"",
           "\"\n    component = \"",
           "\"\n    env       = \"",
           "\"\n    ",
           "\n    engine_version = \"",
           "\"\n    \n    instances = \x7b\n      ",
           "\n    \x7d\n\n    vault = \x7b\n      path                = \"",
           "\"\n      database_name_key   = \"",
           "\"\n      username_key        = \"",
           "\"\n      password_key        = \"",
           "\"\n      endpoint_output_key = \"",
           "\"\n    \x7d\n    ",
           "\n  \x7d\n  "])
        (List.map String.data
          [doc.project, doc.component, doc.env,
           nameOverrideFragment doc.nameOverride,
           doc.engineVersion,
           instancesJoined doc,
           doc.vault.path, doc.vault.databaseNameKey, doc.vault.usernameKey,
           doc.vault.passwordKey, doc.vault.endpointOutputKey,
           extraSGRulesTemplate doc.extraSGRules]) =
      joinLines (preRdsLines doc) := by
  rw [List.map, List.map, List.map, List.map, List.map, List.map, List.map,
    List.map, List.map, List.map, List.map, List.map, List.map, List.map,
    List.map, List.map, List.map, List.map, List.map, List.map, List.map,
    List.map, List.map, List.map, List.map, List.map, List.map]
  rw [endentCore_cons₂, endentCore_cons₂, endentCore_cons₂, endentCore_cons₂,
    endentCore_cons₂, endentCore_cons₂, endentCore_cons₂, endentCore_cons₂,
    endentCore_cons₂, endentCore_cons₂, endentCore_cons₂, endentCore_cons₂,
    endentCore_cons_nil, endentCore_nil]
  rw [indentValue_of_no_newline doc.project.data _ hp,
    indentValue_of_no_newline doc.component.data _ hc,
    indentValue_of_no_newline doc.env.data _ he,
    indentValue_of_no_newline doc.engineVersion.data _ hev,
    indentValue_of_no_newline doc.vault.path.data _ hv1,
    indentValue_of_no_newline doc.vault.databaseNameKey.data _ hv2,
    indentValue_of_no_newline doc.vault.usernameKey.data _ hv3,
    indentValue_of_no_newline doc.vault.passwordKey.data _ hv4,
    indentValue_of_no_newline doc.vault.endpointOutputKey.data _ hv5]
  rw [indentValue_via_tail (nameOverrideFragment doc.nameOverride).data _
    (("    ").data)
    (by
      rw [lineIndentTail_append_of_mem _ _ (by decide)]
      decide)]
  rw [indentValue_via_tail (instancesJoined doc).data _ (("      ").data)
    (by
      rw [lineIndentTail_append_of_mem _ _ (by decide)]
      decide)]
  rw [indentValue_via_tail (extraSGRulesTemplate doc.extraSGRules).data _
    (("    ").data)
    (by
      rw [lineIndentTail_append_of_mem _ _ (by decide)]
      decide)]
  unfold preRdsLines
  rw [joinLines_append _ _ (by simp)
    (append_ne_nil_right _ _ (append_ne_nil_right _ _ (by simp)))]
  rw [joinLines_append _ _ (map_splitLines_ne_nil _ _)
    (append_ne_nil_right _ _ (by simp))]
  rw [joinLines_append _ _ (by simp)
    (append_ne_nil_right _ _ (append_ne_nil_right _ _ (by simp)))]
  rw [joinLines_append _ _ (map_splitLines_ne_nil _ _)
    (append_ne_nil_right _ _ (by simp))]
  rw [joinLines_append _ _ (by simp)
    (append_ne_nil_right _ _ (by simp))]
  rw [joinLines_append _ _ (map_splitLines_ne_nil _ _) (by simp)]
  rw [joinLines_map_ind (("    ").data) _ (splitLines_ne_nil _),
    joinLines_map_ind (("      ").data) _ (splitLines_ne_nil _),
    joinLines_map_ind (("    ").data) _ (splitLines_ne_nil _)]
  simp [joinLines_cons_of_ne_nil, joinLines_single, List.append_assoc]

theorem preRdsLines_nl (doc : Spec)
    (hp : '\n' ∉ doc.project.data) (hc : '\n' ∉ doc.component.data)
    (he : '\n' ∉ doc.env.data) (hev : '\n' ∉ doc.engineVersion.data)
    (hv1 : '\n' ∉ doc.vault.path.data) (hv2 : '\n' ∉ doc.vault.databaseNameKey.data)
    (hv3 : '\n' ∉ doc.vault.usernameKey.data) (hv4 : '\n' ∉ doc.vault.passwordKey.data)
    (hv5 : '\n' ∉ doc.vault.endpointOutputKey.data) :
    ∀ l ∈ preRdsLines doc, '\n' ∉ l := by
  intro l hl
  unfold preRdsLines at hl
  rcases List.mem_append.mp hl with h | h
  · simp only [List.mem_cons] at h
    rcases h with h | h | h | h | h | h | h | h
    · subst h; simp
    · subst h; decide
    · subst h; decide
    · subst h; simp
    · subst h
      exact not_mem_append (by decide) (not_mem_append hp (by decide))
    · subst h
      exact not_mem_append (by decide) (not_mem_append hc (by decide))
    · subst h
      exact not_mem_append (by decide) (not_mem_append he (by decide))
    · simp at h
  · rcases List.mem_append.mp h with h | h
    · rcases List.mem_map.mp h with ⟨p, hpm, rfl⟩
      exact not_mem_append (by decide) (splitLines_no_newline _ p hpm)
    · rcases List.mem_append.mp h with h | h
      · simp only [List.mem_cons] at h
        rcases h with h | h | h | h
        · subst h
          exact not_mem_append (by decide) (not_mem_append hev (by decide))
        · subst h; decide
        · subst h; decide
        · simp at h
      · rcases List.mem_append.mp h with h | h
        · rcases List.mem_map.mp h with ⟨p, hpm, rfl⟩
          exact not_mem_append (by decide) (splitLines_no_newline _ p hpm)
        · rcases List.mem_append.mp h with h | h
          · simp only [List.mem_cons] at h
            rcases h with h | h | h | h | h | h | h | h | h | h
            · subst h; decide
            · subst h; simp
            · subst h; decide
            · subst h
              exact not_mem_append (by decide) (not_mem_append hv1 (by decide))
            · subst h
              exact not_mem_append (by decide) (not_mem_append hv2 (by decide))
            · subst h
              exact not_mem_append (by decide) (not_mem_append hv3 (by decide))
            · subst h
              exact not_mem_append (by decide) (not_mem_append hv4 (by decide))
            · subst h
              exact not_mem_append (by decide) (not_mem_append hv5 (by decide))
            · subst h; decide
            · simp at h
          · rcases List.mem_append.mp h with h | h
            · rcases List.mem_map.mp h with ⟨p, hpm, rfl⟩
              exact not_mem_append (by decide) (splitLines_no_newline _ p hpm)
            · simp only [List.mem_cons] at h
              rcases h with h | h | h
              · subst h; decide
              · subst h; decide
              · simp at h

theorem preRdsLines_mindent (doc : Spec) :
    mindentOf (preRdsLines doc) = some 2 := by
  unfold preRdsLines
  rw [mindentOf_append, mindentOf_append, mindentOf_append, mindentOf_append,
    mindentOf_append, mindentOf_append]
  rw [mindentOf_cons, mindentOf_cons, mindentOf_cons, mindentOf_cons,
    mindentOf_cons, mindentOf_cons, mindentOf_cons, mindentOf_nil]
  rw [mindentOf_cons, mindentOf_cons, mindentOf_cons, mindentOf_nil]
  rw [mindentOf_cons, mindentOf_cons, mindentOf_cons, mindentOf_cons,
    mindentOf_cons, mindentOf_cons, mindentOf_cons, mindentOf_cons,
    mindentOf_cons, mindentOf_nil]
  rw [mindentOf_cons, mindentOf_cons, mindentOf_nil]
  rw [lineIndentLen_append_left ("    project   = \"").data _ (by decide)]
  rw [lineIndentLen_append_left ("    component = \"").data _ (by decide)]
  rw [lineIndentLen_append_left ("    env       = \"").data _ (by decide)]
  rw [lineIndentLen_append_left ("    engine_version = \"").data _ (by decide)]
  rw [lineIndentLen_append_left ("      path                = \"").data _ (by decide)]
  rw [lineIndentLen_append_left ("      database_name_key   = \"").data _ (by decide)]
  rw [lineIndentLen_append_left ("      username_key        = \"").data _ (by decide)]
  rw [lineIndentLen_append_left ("      password_key        = \"").data _ (by decide)]
  rw [lineIndentLen_append_left ("      endpoint_output_key = \"").data _ (by decide)]
  rw [show lineIndentLen ([] : List Char) = none from rfl]
  rw [show lineIndentLen ("  module \"riiid_rds\" \x7b").data = some 2 from by decide]
  rw [show lineIndentLen ("    source = \"../../../../../modules/aws/rds\"").data =
    some 4 from by decide]
  rw [show lineIndentLen ("    project   = \"").data = some 4 from by decide]
  rw [show lineIndentLen ("    component = \"").data = some 4 from by decide]
  rw [show lineIndentLen ("    env       = \"").data = some 4 from by decide]
  rw [show lineIndentLen ("    engine_version = \"").data = some 4 from by decide]
  rw [show lineIndentLen (("    ").data) = none from by decide]
  rw [show lineIndentLen ("    instances = \x7b").data = some 4 from by decide]
  rw [show lineIndentLen (("    \x7d").data) = some 4 from by decide]
  rw [show lineIndentLen ("    vault = \x7b").data = some 4 from by decide]
  rw [show lineIndentLen ("      path                = \"").data = some 6 from by decide]
  rw [show lineIndentLen ("      database_name_key   = \"").data = some 6 from by decide]
  rw [show lineIndentLen ("      username_key        = \"").data = some 6 from by decide]
  rw [show lineIndentLen ("      password_key        = \"").data = some 6 from by decide]
  rw [show lineIndentLen ("      endpoint_output_key = \"").data = some 6 from by decide]
  rw [show lineIndentLen (("  \x7d").data) = some 2 from by decide]
  rw [show lineIndentLen (("  ").data) = none from by decide]
  have hsegF := mindentOf_bound
    ((splitLines (nameOverrideFragment doc.nameOverride).data).map
      (fun p => ("    ").data ++ p)) 2
    (by
      intro l hl n hn
      rcases List.mem_map.mp hl with ⟨p, hpm, rfl⟩
      have := lineIndentLen_ws_mono (("    ").data) p (by decide) n hn
      simp at this
      omega)
  have hsegI := mindentOf_bound
    ((splitLines (instancesJoined doc).data).map (fun p => ("      ").data ++ p)) 2
    (by
      intro l hl n hn
      rcases List.mem_map.mp hl with ⟨p, hpm, rfl⟩
      have := lineIndentLen_ws_mono (("      ").data) p (by decide) n hn
      simp at this
      omega)
  have hsegS := mindentOf_bound
    ((splitLines (extraSGRulesTemplate doc.extraSGRules).data).map
      (fun p => ("    ").data ++ p)) 2
    (by
      intro l hl n hn
      rcases List.mem_map.mp hl with ⟨p, hpm, rfl⟩
      have := lineIndentLen_ws_mono (("    ").data) p (by decide) n hn
      simp at this
      omega)
  rcases hF : mindentOf ((splitLines (nameOverrideFragment doc.nameOverride).data).map
      (fun p => ("    ").data ++ p)) with _ | kF <;>
    rcases hI : mindentOf ((splitLines (instancesJoined doc).data).map
      (fun p => ("      ").data ++ p)) with _ | kI <;>
    rcases hS : mindentOf ((splitLines (extraSGRulesTemplate doc.extraSGRules).data).map
      (fun p => ("    ").data ++ p)) with _ | kS <;>
    [skip; skip; skip; skip; skip; skip; skip; skip] <;>
    first
      | (try have hbF := hsegF kF hF) <;>
        (try have hbI := hsegI kI hI) <;>
        (try have hbS := hsegS kS hS) <;>
        simp only [optMin, Option.some.injEq] <;>
        omega

theorem preRdsLines_strip (doc : Spec) :
    (preRdsLines doc).map (stripLine 2) = [] :: (rdsLines doc ++ [[]]) := by
  unfold preRdsLines rdsLines
  rw [List.map_append, List.map_append, List.map_append, List.map_append,
    List.map_append, List.map_append]
  rw [List.map_map, List.map_map, List.map_map]
  rw [List.map_congr_left (f := stripLine 2 ∘ fun p => ("    ").data ++ p)
    (g := fun p => ("  ").data ++ p) (fun p _ => strip2_ind4 p)]
  rw [List.map_congr_left (f := stripLine 2 ∘ fun p => ("      ").data ++ p)
    (g := fun p => ("    ").data ++ p) (fun p _ => strip2_ind6 p)]
  rw [show (List.map (stripLine 2 ∘ fun p => ("    ").data ++ p)
      (splitLines (extraSGRulesTemplate doc.extraSGRules).data)) =
    List.map (fun p => ("  ").data ++ p)
      (splitLines (extraSGRulesTemplate doc.extraSGRules).data) from
    List.map_congr_left (fun p _ => strip2_ind4 p)]
  simp only [List.map_cons, List.map_nil, List.cons_append, List.nil_append,
    stripLine_two, stripLine_nil,
    show stripLine 2 [' ', ' '] = [] from by decide,
    show stripLine 2 [' ', ' ', ' ', ' '] = [' ', ' '] from by decide]
  simp [List.append_assoc]

theorem rdsLines_no_backslash (doc : Spec) (hs : inertSpec doc = true) :
    ∀ l ∈ rdsLines doc, '\\' ∉ l := by
  obtain ⟨hp, hc, he, _, hev, hno, hin, hva, hsg⟩ := inertSpec_parts hs
  obtain ⟨hv1, hv2, hv3, hv4, hv5⟩ := inertVault_parts hva
  intro l hl
  unfold rdsLines at hl
  rcases List.mem_cons.mp hl with h | h
  · subst h; decide
  · rcases List.mem_append.mp h with h | h
    · rcases List.mem_append.mp h with h | h
      · simp only [List.mem_cons] at h
        rcases h with h | h | h | h | h | h
        · subst h; decide
        · subst h; simp
        · subst h
          exact not_mem_append (by decide)
            (not_mem_append (inertStr_no_backslash hp) (by decide))
        · subst h
          exact not_mem_append (by decide)
            (not_mem_append (inertStr_no_backslash hc) (by decide))
        · subst h
          exact not_mem_append (by decide)
            (not_mem_append (inertStr_no_backslash he) (by decide))
        · simp at h
      · rcases List.mem_append.mp h with h | h
        · rcases List.mem_map.mp h with ⟨p, hpm, rfl⟩
          apply not_mem_append (by decide)
          exact no_newline_of_not_mem (splitLines_chars_subset _ p hpm)
            (nameOverrideFragment_no_backslash doc.nameOverride hno)
        · rcases List.mem_append.mp h with h | h
          · simp only [List.mem_cons] at h
            rcases h with h | h | h | h
            · subst h
              exact not_mem_append (by decide)
                (not_mem_append (inertStr_no_backslash hev) (by decide))
            · subst h; decide
            · subst h; decide
            · simp at h
          · rcases List.mem_append.mp h with h | h
            · rcases List.mem_map.mp h with ⟨p, hpm, rfl⟩
              apply not_mem_append (by decide)
              exact no_newline_of_not_mem (splitLines_chars_subset _ p hpm)
                (instancesJoined_no_backslash doc hin)
            · rcases List.mem_append.mp h with h | h
              · simp only [List.mem_cons] at h
                rcases h with h | h | h | h | h | h | h | h | h | h
                · subst h; decide
                · subst h; simp
                · subst h; decide
                · subst h
                  exact not_mem_append (by decide)
                    (not_mem_append (inertStr_no_backslash hv1) (by decide))
                · subst h
                  exact not_mem_append (by decide)
                    (not_mem_append (inertStr_no_backslash hv2) (by decide))
                · subst h
                  exact not_mem_append (by decide)
                    (not_mem_append (inertStr_no_backslash hv3) (by decide))
                · subst h
                  exact not_mem_append (by decide)
                    (not_mem_append (inertStr_no_backslash hv4) (by decide))
                · subst h
                  exact not_mem_append (by decide)
                    (not_mem_append (inertStr_no_backslash hv5) (by decide))
                · subst h; decide
                · simp at h
              · rcases List.mem_map.mp h with ⟨p, hpm, rfl⟩
                apply not_mem_append (by decide)
                exact no_newline_of_not_mem (splitLines_chars_subset _ p hpm)
                  (extraSGRulesTemplate_no_backslash doc.extraSGRules hsg)
    · simp only [List.mem_cons] at h
      rcases h with h | h
      · subst h; decide
      · simp at h

theorem rdsFileTemplate_data (doc : Spec) (hs : inertSpec doc = true) :
    (rdsFileTemplate doc).data = joinLines (rdsLines doc) ++ ['\n'] := by
  obtain ⟨hp, hc, he, _, hev, _, _, hva, _⟩ := inertSpec_parts hs
  obtain ⟨hv1, hv2, hv3, hv4, hv5⟩ := inertVault_parts hva
  unfold rdsFileTemplate
  rw [String.data_append]
  unfold endent
  rw [data_mk]
  rw [rdsFileTemplate_raw doc (inertStr_no_newline hp) (inertStr_no_newline hc)
    (inertStr_no_newline he) (inertStr_no_newline hev)
    (inertStr_no_newline hv1) (inertStr_no_newline hv2) (inertStr_no_newline hv3)
    (inertStr_no_newline hv4) (inertStr_no_newline hv5)]
  rw [dedentL_of_lines _ (preRdsLines doc) 2
    (splitLines_joinLines _ (by simp [preRdsLines])
      (preRdsLines_nl doc (inertStr_no_newline hp) (inertStr_no_newline hc)
        (inertStr_no_newline he) (inertStr_no_newline hev)
        (inertStr_no_newline hv1) (inertStr_no_newline hv2)
        (inertStr_no_newline hv3) (inertStr_no_newline hv4)
        (inertStr_no_newline hv5)))
    (preRdsLines_mindent doc)]
  rw [preRdsLines_strip doc]
  have hhead : (joinLines (rdsLines doc)).head? = some 'm' := by
    unfold rdsLines
    exact head?_joinLines_cons _ _ _ rfl
  have hlast : (joinLines (rdsLines doc)).getLast? = some '}' := by
    apply getLast?_joinLines_last _ (("\x7d").data) '}'
    · unfold rdsLines
      rw [getLast?_cons_right _ _ (by simp)]
      rw [getLast?_append_right _ _ (by simp)]
      rfl
    · decide
  rw [jsTrim_dedented (rdsLines doc) (by simp [rdsLines])
    'm' (by decide) hhead '}' (by decide) hlast]
  rw [replaceBackslashN_of_no_backslash _
    (no_backslash_joinLines _ (rdsLines_no_backslash doc hs))]

/-! ## Lemmas: the filesystem model -/

theorem lookupFile_upsert_same (p c : String) (l : List (String × String)) :
    lookupFile p (upsert p c l) = some c := by
  induction l with
  | nil => simp [upsert, lookupFile]
  | cons x xs ih =>
    obtain ⟨q, d⟩ := x
    by_cases h : q = p
    · simp [upsert, h, lookupFile]
    · simp [upsert, h, lookupFile, ih]

theorem lookupFile_upsert_other (p q c : String) (l : List (String × String))
    (h : q ≠ p) : lookupFile q (upsert p c l) = lookupFile q l := by
  induction l with
  | nil => simp [upsert, lookupFile, Ne.symm h]
  | cons x xs ih =>
    obtain ⟨r, d⟩ := x
    by_cases hr : r = p
    · subst hr
      simp [upsert, lookupFile, Ne.symm h]
    · simp [upsert, hr, lookupFile, ih]

theorem lookupFile_removeFile_same (p : String) (l : List (String × String)) :
    lookupFile p (removeFile p l) = none := by
  induction l with
  | nil => simp [removeFile, lookupFile]
  | cons x xs ih =>
    obtain ⟨q, d⟩ := x
    by_cases h : q = p
    · simp [removeFile, h, ih]
    · simp [removeFile, h, lookupFile, ih]

theorem lookupFile_removeFile_other (p q : String) (l : List (String × String))
    (h : q ≠ p) : lookupFile q (removeFile p l) = lookupFile q l := by
  induction l with
  | nil => simp [removeFile, lookupFile]
  | cons x xs ih =>
    obtain ⟨r, d⟩ := x
    by_cases hr : r = p
    · subst hr
      simp [removeFile, lookupFile, Ne.symm h, ih]
    · simp [removeFile, hr, lookupFile, ih]

theorem ensureDir_files (d : String) (fs : FSState) :
    (ensureDir d fs).files = fs.files := by
  unfold ensureDir
  by_cases h : fs.dirs.contains d
  · rw [if_pos h]
  · rw [if_neg h]

theorem config_ne_main (d : String) : d ++ "/config.tf" ≠ d ++ "/main.tf" := by
  intro h
  have h2 : ("/config.tf" : String).data = ("/main.tf" : String).data := by
    have h1 := congrArg String.data h
    rw [String.data_append, String.data_append] at h1
    exact List.append_cancel_left h1
  exact absurd h2 (by decide)

/-! ## Lemmas: newline-freedom of the rendered line lists -/

theorem instanceLines_nl (key : String) (spec : InstanceSpec)
    (hk : cleanStr key = true) (hc : inertStr spec.instanceClass = true)
    (ht : inertStr (toString spec.promotionTier) = true) :
    ∀ l ∈ instanceLines key spec, '\n' ∉ l := by
  intro l hl
  unfold instanceLines at hl
  simp only [List.mem_cons] at hl
  rcases hl with h | h | h | h | h
  · subst h
    exact not_mem_append (cleanStr_no_newline hk) (by decide)
  · subst h
    exact not_mem_append (by decide)
      (not_mem_append (inertStr_no_newline hc) (by decide))
  · subst h
    exact not_mem_append (by decide) (inertStr_no_newline ht)
  · subst h; decide
  · simp at h

theorem sgLines_nl (sgRule : SGRuleSpec)
    (hT : inertStr (typeOrIngress sgRule.type) = true)
    (hd : inertStr sgRule.description = true)
    (hf : inertStr (toString sgRule.fromPort) = true)
    (hp : inertStr (toString sgRule.toPort) = true) :
    ∀ l ∈ sgLines sgRule, '\n' ∉ l := by
  intro l hl
  unfold sgLines at hl
  rcases List.mem_cons.mp hl with h | h
  · subst h; decide
  · rcases List.mem_append.mp h with h | h
    · rcases List.mem_append.mp h with h | h
      · simp only [List.mem_cons] at h
        rcases h with h | h | h | h | h | h
        · subst h
          exact not_mem_append (by decide)
            (not_mem_append (inertStr_no_newline hT) (by decide))
        · subst h
          exact not_mem_append (by decide)
            (not_mem_append (inertStr_no_newline hd) (by decide))
        · subst h
          exact not_mem_append (by decide) (inertStr_no_newline hf)
        · subst h
          exact not_mem_append (by decide) (inertStr_no_newline hp)
        · subst h; decide
        · simp at h
      · rcases List.mem_append.mp h with h | h
        · rcases List.mem_map.mp h with ⟨p, hpm, rfl⟩
          exact not_mem_append (by decide) (splitLines_no_newline _ p hpm)
        · simp only [List.mem_cons] at h
          rcases h with h | h
          · subst h; decide
          · simp at h
    · simp only [List.mem_cons] at h
      rcases h with h | h
      · subst h; decide
      · simp at h

theorem extraLines_nl (rules : List SGRuleSpec) :
    ∀ l ∈ extraLines rules, '\n' ∉ l := by
  intro l hl
  unfold extraLines at hl
  rcases List.mem_cons.mp hl with h | h
  · subst h; decide
  · rcases List.mem_append.mp h with h | h
    · rcases List.mem_map.mp h with ⟨p, hpm, rfl⟩
      exact not_mem_append (by decide) (splitLines_no_newline _ p hpm)
    · simp only [List.mem_cons] at h
      rcases h with h | h
      · subst h; decide
      · simp at h

theorem rdsLines_nl (doc : Spec) (hs : inertSpec doc = true) :
    ∀ l ∈ rdsLines doc, '\n' ∉ l := by
  obtain ⟨hp, hc, he, _, hev, _, _, hva, _⟩ := inertSpec_parts hs
  obtain ⟨hv1, hv2, hv3, hv4, hv5⟩ := inertVault_parts hva
  intro l hl
  unfold rdsLines at hl
  rcases List.mem_cons.mp hl with h | h
  · subst h; decide
  · rcases List.mem_append.mp h with h | h
    · rcases List.mem_append.mp h with h | h
      · simp only [List.mem_cons] at h
        rcases h with h | h | h | h | h | h
        · subst h; decide
        · subst h; simp
        · subst h
          exact not_mem_append (by decide)
            (not_mem_append (inertStr_no_newline hp) (by decide))
        · subst h
          exact not_mem_append (by decide)
            (not_mem_append (inertStr_no_newline hc) (by decide))
        · subst h
          exact not_mem_append (by decide)
            (not_mem_append (inertStr_no_newline he) (by decide))
        · simp at h
      · rcases List.mem_append.mp h with h | h
        · rcases List.mem_map.mp h with ⟨p, hpm, rfl⟩
          exact not_mem_append (by decide) (splitLines_no_newline _ p hpm)
        · rcases List.mem_append.mp h with h | h
          · simp only [List.mem_cons] at h
            rcases h with h | h | h | h
            · subst h
              exact not_mem_append (by decide)
                (not_mem_append (inertStr_no_newline hev) (by decide))
            · subst h; decide
            · subst h; decide
            · simp at h
          · rcases List.mem_append.mp h with h | h
            · rcases List.mem_map.mp h with ⟨p, hpm, rfl⟩
              exact not_mem_append (by decide) (splitLines_no_newline _ p hpm)
            · rcases List.mem_append.mp h with h | h
              · simp only [List.mem_cons] at h
                rcases h with h | h | h | h | h | h | h | h | h | h
                · subst h; decide
                · subst h; simp
                · subst h; decide
                · subst h
                  exact not_mem_append (by decide)
                    (not_mem_append (inertStr_no_newline hv1) (by decide))
                · subst h
                  exact not_mem_append (by decide)
                    (not_mem_append (inertStr_no_newline hv2) (by decide))
                · subst h
                  exact not_mem_append (by decide)
                    (not_mem_append (inertStr_no_newline hv3) (by decide))
                · subst h
                  exact not_mem_append (by decide)
                    (not_mem_append (inertStr_no_newline hv4) (by decide))
                · subst h
                  exact not_mem_append (by decide)
                    (not_mem_append (inertStr_no_newline hv5) (by decide))
                · subst h; decide
                · simp at h
              · rcases List.mem_map.mp h with ⟨p, hpm, rfl⟩
                exact not_mem_append (by decide) (splitLines_no_newline _ p hpm)
    · simp only [List.mem_cons] at h
      rcases h with h | h
      · subst h; decide
      · simp at h

/-! ## Lemmas: line decomposition of the rendered templates -/

theorem splitLines_sgRuleTemplate (r : SGRuleSpec) (hr : inertSGRule r = true) :
    splitLines (sgRuleTemplate r).data = sgLines r := by
  obtain ⟨hT, hd, hf, hp, hb⟩ := inertSGRule_parts hr
  rw [sgRuleTemplate_data r hT hd hf hp hb]
  exact splitLines_joinLines _ (by simp [sgLines]) (sgLines_nl r hT hd hf hp)

theorem splitLines_rdsFileTemplate (doc : Spec) (hs : inertSpec doc = true) :
    splitLines (rdsFileTemplate doc).data = rdsLines doc ++ [[]] := by
  rw [rdsFileTemplate_data doc hs]
  rw [show joinLines (rdsLines doc) ++ ['\n'] =
      joinLines (rdsLines doc) ++ '\n' :: [] from rfl]
  rw [splitLines_append_newline]
  rw [splitLines_joinLines _ (by simp [rdsLines]) (rdsLines_nl doc hs)]
  rfl

theorem splitLines_extraSGRulesTemplate (rules : List SGRuleSpec)
    (hne : rules ≠ []) (hr : ∀ x ∈ rules, inertSGRule x = true) :
    splitLines (extraSGRulesTemplate (some rules)).data = extraLines rules := by
  rw [extraSGRulesTemplate_data rules hne hr]
  exact splitLines_joinLines _ (by simp [extraLines]) (extraLines_nl rules)

theorem splitLines_nameOverrideFragment_some (s : String) (hne : s ≠ "")
    (hs : inertStr s = true) :
    splitLines (nameOverrideFragment (some s)).data =
      [[], ("name_override = ").data ++ s.data, []] := by
  simp only [nameOverrideFragment]
  rw [if_neg hne]
  have hshape : (("\nname_override = " ++ s ++ "\n") : String).data =
      '\n' :: ((("name_override = ").data ++ s.data) ++ '\n' :: []) := by
    rw [String.data_append, String.data_append]
    simp
  rw [hshape, splitLines_cons_newline, splitLines_append_newline,
    splitLines_singleton _ (not_mem_append (by decide) (inertStr_no_newline hs))]
  rfl

/-! ## Lemmas: Object.entries on maps without array-index keys -/

theorem length_insertSorted (x : String × InstanceSpec)
    (l : List (String × InstanceSpec)) :
    (insertSorted x l).length = l.length + 1 := by
  induction l with
  | nil => rfl
  | cons y ys ih =>
    unfold insertSorted
    by_cases h : keyNat x ≤ keyNat y
    · rw [if_pos h]; rfl
    · rw [if_neg h]
      simp [ih]

theorem length_sortByKeyNat (l : List (String × InstanceSpec)) :
    (sortByKeyNat l).length = l.length := by
  induction l with
  | nil => rfl
  | cons x xs ih =>
    show (insertSorted x (sortByKeyNat xs)).length = xs.length + 1
    rw [length_insertSorted, ih]

theorem length_filter_partition {α : Type} (p : α → Bool) (l : List α) :
    (l.filter p).length + (l.filter (fun x => !p x)).length = l.length := by
  induction l with
  | nil => rfl
  | cons x xs ih =>
    cases h : p x with
    | false =>
      rw [List.filter_cons_of_neg (by simp [h]), List.filter_cons_of_pos (by simp [h])]
      simp only [List.length_cons]
      omega
    | true =>
      rw [List.filter_cons_of_pos (by simp [h]), List.filter_cons_of_neg (by simp [h])]
      simp only [List.length_cons]
      omega

theorem length_jsEntries (m : List (String × InstanceSpec)) :
    (jsEntries m).length = m.length := by
  unfold jsEntries
  rw [List.length_append, length_sortByKeyNat]
  exact length_filter_partition _ m

theorem jsEntries_ne_nil (m : List (String × InstanceSpec)) (h : m ≠ []) :
    jsEntries m ≠ [] := by
  intro h0
  have hlen := length_jsEntries m
  rw [h0] at hlen
  exact h (List.length_eq_zero.mp hlen.symm)

theorem jsEntries_eq_self (m : List (String × InstanceSpec))
    (h : ∀ kv ∈ m, isArrayIndexKey kv.1 = false) : jsEntries m = m := by
  unfold jsEntries
  rw [List.filter_eq_nil_iff.mpr (by intro a ha; simp [h a ha])]
  rw [show sortByKeyNat [] = [] from rfl, List.nil_append]
  exact List.filter_eq_self.mpr (by intro a ha; simp [h a ha])

theorem splitLines_instancesJoined (doc : Spec)
    (hin : ∀ kv ∈ doc.instances, inertInstance kv = true)
    (hne : doc.instances ≠ []) :
    splitLines (instancesJoined doc).data =
      ((jsEntries doc.instances).map (fun kv => instanceLines kv.1 kv.2)).flatten := by
  unfold instancesJoined joinNL
  rw [data_mk]
  rw [List.map_map]
  rw [splitLines_intercalate_nl _ (by
    intro h0
    rw [List.map_eq_nil_iff] at h0
    exact jsEntries_ne_nil _ hne h0)]
  rw [List.map_map]
  congr 1
  apply List.map_congr_left
  intro kv hkv
  obtain ⟨hk, hc, ht⟩ := inertInstance_parts (hin kv (mem_of_mem_jsEntries kv _ hkv))
  simp only [Function.comp_apply]
  rw [instanceTemplate_data kv.1 kv.2 hk hc ht]
  exact splitLines_joinLines _ (by simp [instanceLines])
    (instanceLines_nl kv.1 kv.2 hk hc ht)

/-! ## Lemmas: the cidr block list -/

theorem flatten_map_singleton {α β : Type} (g : α → List β) (l : List α) :
    (l.map (fun b => [g b])).flatten = l.map g := by
  induction l with
  | nil => rfl
  | cons x xs ih => simp [ih]

theorem splitLines_cidrJoined (r : SGRuleSpec) (hne : r.cidrBlocks ≠ [])
    (hb : ∀ b ∈ r.cidrBlocks, inertStr b = true) :
    splitLines (cidrJoined r).data =
      r.cidrBlocks.map (fun b => ("\"").data ++ (b.data ++ ("\",").data)) := by
  unfold cidrJoined joinNL
  rw [data_mk]
  rw [List.map_map]
  rw [splitLines_intercalate_nl _ (by
    intro h0
    rw [List.map_eq_nil_iff] at h0
    exact hne h0)]
  rw [List.map_map]
  have hpt : ∀ b ∈ r.cidrBlocks,
      (splitLines ∘ (String.data ∘ fun block => "\"" ++ block ++ "\",")) b =
        (fun b => [("\"").data ++ (b.data ++ ("\",").data)]) b := by
    intro b hbm
    simp only [Function.comp_apply]
    rw [String.data_append, String.data_append]
    rw [splitLines_singleton _
      (not_mem_append (not_mem_append (by decide) (inertStr_no_newline (hb b hbm)))
        (by decide))]
    simp [List.append_assoc]
  rw [List.map_congr_left hpt]
  exact flatten_map_singleton _ _

/-! ## Lemmas: which rendered lines carry a name_override binding -/

theorem isNameOverrideLine_sp4 (p : List Char) :
    isNameOverrideLine (("    ").data ++ p) = false := rfl

theorem isNameOverrideLine_extra (x : Option (List SGRuleSpec))
    (hsg : ∀ rules, x = some rules → ∀ r ∈ rules, inertSGRule r = true) :
    ∀ p ∈ splitLines (extraSGRulesTemplate x).data,
      isNameOverrideLine (("  ").data ++ p) = false := by
  intro p hp
  cases x with
  | none =>
    simp only [show splitLines (extraSGRulesTemplate none).data = [[]] from rfl,
      List.mem_singleton] at hp
    subst hp
    rfl
  | some rules =>
    cases rules with
    | nil =>
      simp only [show splitLines (extraSGRulesTemplate (some [])).data = [[]] from rfl,
        List.mem_singleton] at hp
      subst hp
      rfl
    | cons r rs =>
      rw [splitLines_extraSGRulesTemplate (r :: rs) (by simp) (hsg _ rfl)] at hp
      unfold extraLines at hp
      rcases List.mem_cons.mp hp with h | h
      · subst h; rfl
      · rcases List.mem_append.mp h with h | h
        · rcases List.mem_map.mp h with ⟨q, hq, rfl⟩
          rw [show ("  ").data ++ (("  ").data ++ q) = ("    ").data ++ q from by simp]
          exact isNameOverrideLine_sp4 q
        · simp only [List.mem_cons] at h
          rcases h with h | h
          · subst h; rfl
          · simp at h

theorem countP_rdsLines_none (doc : Spec) (hs : inertSpec doc = true)
    (hno : doc.nameOverride = none) :
    (rdsLines doc).countP isNameOverrideLine = 0 := by
  obtain ⟨_, _, _, _, _, _, _, _, hsg⟩ := inertSpec_parts hs
  rw [List.countP_eq_zero]
  intro l hl
  simp only [Bool.not_eq_true]
  unfold rdsLines at hl
  rw [hno] at hl
  rw [show splitLines (nameOverrideFragment none).data = [[]] from rfl] at hl
  rcases List.mem_cons.mp hl with h | h
  · subst h; rfl
  · rcases List.mem_append.mp h with h | h
    · rcases List.mem_append.mp h with h | h
      · simp only [List.mem_cons] at h
        rcases h with h | h | h | h | h | h
        · subst h; rfl
        · subst h; rfl
        · subst h; rfl
        · subst h; rfl
        · subst h; rfl
        · simp at h
      · rcases List.mem_append.mp h with h | h
        · rcases List.mem_map.mp h with ⟨p, hpm, rfl⟩
          simp only [List.mem_singleton] at hpm
          subst hpm
          rfl
        · rcases List.mem_append.mp h with h | h
          · simp only [List.mem_cons] at h
            rcases h with h | h | h | h
            · subst h; rfl
            · subst h; rfl
            · subst h; rfl
            · simp at h
          · rcases List.mem_append.mp h with h | h
            · rcases List.mem_map.mp h with ⟨p, hpm, rfl⟩
              exact isNameOverrideLine_sp4 p
            · rcases List.mem_append.mp h with h | h
              · simp only [List.mem_cons] at h
                rcases h with h | h | h | h | h | h | h | h | h | h
                · subst h; rfl
                · subst h; rfl
                · subst h; rfl
                · subst h; rfl
                · subst h; rfl
                · subst h; rfl
                · subst h; rfl
                · subst h; rfl
                · subst h; rfl
                · simp at h
              · rcases List.mem_map.mp h with ⟨p, hpm, rfl⟩
                exact isNameOverrideLine_extra doc.extraSGRules hsg p hpm
    · simp only [List.mem_cons] at h
      rcases h with h | h
      · subst h; rfl
      · simp at h

/-! ## Lemmas: the rendered type line of a security rule -/

theorem type_line_mem (r : SGRuleSpec) (hr : inertSGRule r = true) :
    ("  type        = \"").data ++ ((typeOrIngress r.type).data ++ ("\"").data) ∈
      splitLines (sgRuleTemplate r).data := by
  rw [splitLines_sgRuleTemplate r hr]
  unfold sgLines
  exact List.mem_cons_of_mem _
    (List.mem_append_left _ (List.mem_append_left _ (by simp)))

/-! ## The claims -/

/-- Claim C2: the target directory of the placement step is a pure function
of `(env, project, component)`, equal to
`./riiid-aws-service-<env>/service/<project>/<component>/rds-generated`; in
particular `env="prod"`, `project="p1"`, `component="c1"` resolves to exactly
`./riiid-aws-service-prod/service/p1/c1/rds-generated`. -/
theorem target_dir_pure :
    (∀ d1 d2 : Spec, d1.env = d2.env → d1.project = d2.project →
        d1.component = d2.component → targetDir d1 = targetDir d2) ∧
    (∀ d : Spec, d.env = "prod" → d.project = "p1" → d.component = "c1" →
        targetDir d = "./riiid-aws-service-prod/service/p1/c1/rds-generated") := by
  constructor
  · intro d1 d2 he hp hc
    unfold targetDir
    rw [he, hp, hc]
  · intro d he hp hc
    unfold targetDir
    rw [he, hp, hc]
    rfl

theorem target_dir_pure_witness :
    exSpec.env = "prod" ∧ exSpec.project = "p1" ∧ exSpec.component = "c1" ∧
    targetDir exSpec = "./riiid-aws-service-prod/service/p1/c1/rds-generated" :=
  ⟨rfl, rfl, rfl, target_dir_pure.2 exSpec rfl rfl rfl⟩

/-- Claim C4: a spec with `extraSGRules` absent renders byte-identically to
the same spec with `extraSGRules` present but empty; `extraSGRulesTemplate`
returns the empty string in both cases. -/
theorem extra_rules_absent_iff_empty (doc : Spec) (h : doc.extraSGRules = none) :
    extraSGRulesTemplate none = "" ∧ extraSGRulesTemplate (some []) = "" ∧
    rdsFileTemplate doc = rdsFileTemplate { doc with extraSGRules := some [] } := by
  obtain ⟨reg, proj, comp, env, no, ev, inst, va, ex⟩ := doc
  have h' : ex = none := h
  subst h'
  exact ⟨rfl, rfl, rfl⟩

theorem extra_rules_absent_iff_empty_witness :
    exSpec.extraSGRules = none ∧
    (extraSGRulesTemplate none = "" ∧ extraSGRulesTemplate (some []) = "" ∧
      rdsFileTemplate exSpec = rdsFileTemplate { exSpec with extraSGRules := some [] }) :=
  ⟨rfl, extra_rules_absent_iff_empty exSpec rfl⟩

/-- Claim C9: a spec whose `nameOverride` is present but equal to the empty
string renders byte-identically to the same spec with `nameOverride` absent:
the truthiness check maps both to the empty fragment. -/
theorem empty_name_override_eq_none (doc : Spec) (h : doc.nameOverride = some "") :
    nameOverrideFragment doc.nameOverride = "" ∧
    rdsFileTemplate doc = rdsFileTemplate { doc with nameOverride := none } := by
  obtain ⟨reg, proj, comp, env, no, ev, inst, va, ex⟩ := doc
  have h' : no = some "" := h
  subst h'
  exact ⟨rfl, rfl⟩

theorem empty_name_override_eq_none_witness :
    exSpecEmptyNO.nameOverride = some "" ∧
    (nameOverrideFragment exSpecEmptyNO.nameOverride = "" ∧
      rdsFileTemplate exSpecEmptyNO =
        rdsFileTemplate { exSpecEmptyNO with nameOverride := none }) :=
  ⟨rfl, empty_name_override_eq_none exSpecEmptyNO rfl⟩

/-- Claim C10: a security rule whose `type` is present but equal to the
empty string renders with `type        = "ingress"`, byte-identical to the
same rule with `type` absent: the empty string falls through the
truthiness-based default. -/
theorem empty_type_eq_none (r : SGRuleSpec) (h : r.type = some "") :
    typeOrIngress r.type = "ingress" ∧
    sgRuleTemplate r = sgRuleTemplate { r with type := none } ∧
    (inertSGRule r = true →
      ("  type        = \"ingress\"").data ∈ splitLines (sgRuleTemplate r).data) := by
  obtain ⟨ty, d, f, t, cb⟩ := r
  have h' : ty = some "" := h
  subst h'
  refine ⟨rfl, rfl, ?_⟩
  intro hr
  have hm := type_line_mem ⟨some "", d, f, t, cb⟩ hr
  simpa [typeOrIngress] using hm

theorem empty_type_eq_none_witness :
    exRuleEmptyType.type = some "" ∧
    (typeOrIngress exRuleEmptyType.type = "ingress" ∧
      sgRuleTemplate exRuleEmptyType =
        sgRuleTemplate { exRuleEmptyType with type := none } ∧
      (inertSGRule exRuleEmptyType = true →
        ("  type        = \"ingress\"").data ∈
          splitLines (sgRuleTemplate exRuleEmptyType).data)) :=
  ⟨rfl, empty_type_eq_none exRuleEmptyType rfl⟩

/-- Claim C7: a security rule whose `type` is absent renders with
`type        = "ingress"`; a rule whose `type` is a non-empty string such
as `"egress"` renders with that value. -/
theorem type_default_ingress (r : SGRuleSpec) (hr : inertSGRule r = true) :
    (r.type = none →
      ("  type        = \"ingress\"").data ∈ splitLines (sgRuleTemplate r).data) ∧
    (∀ s, r.type = some s → s ≠ "" →
      ("  type        = \"").data ++ (s.data ++ ("\"").data) ∈
        splitLines (sgRuleTemplate r).data) := by
  constructor
  · intro h
    have hm := type_line_mem r hr
    rw [h] at hm
    simpa [typeOrIngress] using hm
  · intro s hsm hne
    have hm := type_line_mem r hr
    rw [hsm] at hm
    simpa [typeOrIngress, hne] using hm

theorem type_default_ingress_witness :
    inertSGRule exRule = true ∧
    ((exRule.type = none →
       ("  type        = \"ingress\"").data ∈ splitLines (sgRuleTemplate exRule).data) ∧
     (∀ s, exRule.type = some s → s ≠ "" →
       ("  type        = \"").data ++ (s.data ++ ("\"").data) ∈
         splitLines (sgRuleTemplate exRule).data)) :=
  ⟨by decide, type_default_ingress exRule (by decide)⟩

set_option maxRecDepth 8000 in
/-- Claim C1: for every spec with single-line field values, the rendered
configuration file is exactly the fixed text below with `env`, `project`,
`component` and `region` substituted: a minimum-version constraint, an s3
backend with bucket `riiid-aws-service-<env>-terraform-1.0.0`, key
`service/<project>/<component>/rds_generated/tfstate` and the spec's region,
then the const module reference, the vault provider (address from the const
module) and the aws provider (region only). -/
theorem config_text_exact (doc : Spec)
    (he : inertStr doc.env = true) (hp : inertStr doc.project = true)
    (hc : inertStr doc.component = true) (hr : inertStr doc.region = true) :
    configFileTemplate doc =
      "terraform \x7b\n  required_version = \">= 1.0.0\"\n\n  backend \"s3\" \x7b\n    bucket = \"riiid-aws-service-"
      ++ doc.env ++
      "-terraform-1.0.0\"\n    key    = \"service/" ++ doc.project ++ "/" ++
      doc.component ++ "/rds_generated/tfstate\"\n    region = \"" ++ doc.region ++
      "\"\n  \x7d\n\x7d\n\nmodule \"const\" \x7b source = \"../../../../../const\" \x7d\n\nprovider \"vault\" \x7b\n  address = module.const.vault.addr\n\x7d\n\nprovider \"aws\" \x7b\n  region = \"" ++ doc.region ++ "\"\n\x7d\n" := by
  apply String.ext
  rw [configFileTemplate_data doc he hp hc hr]
  simp only [String.data_append]
  unfold configLines joinLines
  simp [List.intercalate, List.intersperse]

theorem config_text_exact_witness :
    inertStr exSpec.env = true ∧ inertStr exSpec.project = true ∧
    inertStr exSpec.component = true ∧ inertStr exSpec.region = true ∧
    configFileTemplate exSpec =
      "terraform \x7b\n  required_version = \">= 1.0.0\"\n\n  backend \"s3\" \x7b\n    bucket = \"riiid-aws-service-"
      ++ exSpec.env ++
      "-terraform-1.0.0\"\n    key    = \"service/" ++ exSpec.project ++ "/" ++
      exSpec.component ++ "/rds_generated/tfstate\"\n    region = \"" ++ exSpec.region ++
      "\"\n  \x7d\n\x7d\n\nmodule \"const\" \x7b source = \"../../../../../const\" \x7d\n\nprovider \"vault\" \x7b\n  address = module.const.vault.addr\n\x7d\n\nprovider \"aws\" \x7b\n  region = \"" ++ exSpec.region ++ "\"\n\x7d\n" :=
  ⟨by decide, by decide, by decide, by decide,
   config_text_exact exSpec (by decide) (by decide) (by decide) (by decide)⟩

/-- Claim C8: for one processed input file, the placement step writes the
rendered config text to `<dir>/config.tf` and the module text to
`<dir>/main.tf` (overwriting whatever was there), deletes the input file
only when both writes succeeded, keeps the input file when a write fails,
and keeps both written outputs when the delete fails (no rollback). -/
theorem placement_semantics (o : FsOracle) (fp : String) (doc : Spec) (fs0 : FSState)
    (h1 : fp ≠ targetDir doc ++ "/config.tf") (h2 : fp ≠ targetDir doc ++ "/main.tf") :
    (o.writeOk (targetDir doc ++ "/config.tf") = true →
     o.writeOk (targetDir doc ++ "/main.tf") = true →
      lookupFile (targetDir doc ++ "/config.tf") (processSpecFile o fp doc fs0).1.files =
        some (configFileTemplate doc) ∧
      lookupFile (targetDir doc ++ "/main.tf") (processSpecFile o fp doc fs0).1.files =
        some (rdsFileTemplate doc) ∧
      (o.rmOk fp = true →
        lookupFile fp (processSpecFile o fp doc fs0).1.files = none ∧
        (processSpecFile o fp doc fs0).2 = true) ∧
      (o.rmOk fp = false →
        lookupFile fp (processSpecFile o fp doc fs0).1.files = lookupFile fp fs0.files ∧
        (processSpecFile o fp doc fs0).2 = false)) ∧
    ((o.writeOk (targetDir doc ++ "/config.tf") = false ∨
      o.writeOk (targetDir doc ++ "/main.tf") = false) →
      lookupFile fp (processSpecFile o fp doc fs0).1.files = lookupFile fp fs0.files ∧
      (processSpecFile o fp doc fs0).2 = false) := by
  have hcm := config_ne_main (targetDir doc)
  constructor
  · intro hw1 hw2
    cases hrm : o.rmOk fp with
    | true =>
      simp only [processSpecFile, hw1, hw2, hrm, eq_self_iff_true, if_true,
        ensureDir_files]
      refine ⟨?_, ?_, ?_, ?_⟩
      · rw [lookupFile_removeFile_other fp _ _ (Ne.symm h1)]
        rw [lookupFile_upsert_other _ _ _ _ hcm]
        exact lookupFile_upsert_same _ _ _
      · rw [lookupFile_removeFile_other fp _ _ (Ne.symm h2)]
        exact lookupFile_upsert_same _ _ _
      · intro hx
        exact ⟨lookupFile_removeFile_same _ _, trivial⟩
      · intro hcontra
        exact absurd hcontra (by decide)
    | false =>
      simp only [processSpecFile, hw1, hw2, hrm, eq_self_iff_true, if_true,
        Bool.false_eq_true, if_false, ensureDir_files]
      refine ⟨?_, ?_, ?_, ?_⟩
      · rw [lookupFile_upsert_other _ _ _ _ hcm]
        exact lookupFile_upsert_same _ _ _
      · exact lookupFile_upsert_same _ _ _
      · intro hcontra
        exact hcontra.elim
      · intro hx
        refine ⟨?_, trivial⟩
        rw [lookupFile_upsert_other _ fp _ _ h2]
        exact lookupFile_upsert_other _ fp _ _ h1
  · intro hw
    rcases hw with hw | hw
    · simp only [processSpecFile, hw, Bool.false_eq_true, if_false, ensureDir_files]
      exact ⟨trivial, trivial⟩
    · cases hw1 : o.writeOk (targetDir doc ++ "/config.tf") with
      | true =>
        simp only [processSpecFile, hw1, hw, eq_self_iff_true, if_true,
          Bool.false_eq_true, if_false, ensureDir_files]
        refine ⟨?_, trivial⟩
        exact lookupFile_upsert_other _ fp _ _ h1
      | false =>
        simp only [processSpecFile, hw1, Bool.false_eq_true, if_false, ensureDir_files]
        exact ⟨trivial, trivial⟩

theorem placement_semantics_witness :
    ("./in/spec.yml" : String) ≠ targetDir exSpec ++ "/config.tf" ∧
    ("./in/spec.yml" : String) ≠ targetDir exSpec ++ "/main.tf" ∧
    ((exOracle.writeOk (targetDir exSpec ++ "/config.tf") = true →
      exOracle.writeOk (targetDir exSpec ++ "/main.tf") = true →
       lookupFile (targetDir exSpec ++ "/config.tf")
           (processSpecFile exOracle "./in/spec.yml" exSpec ⟨[], []⟩).1.files =
         some (configFileTemplate exSpec) ∧
       lookupFile (targetDir exSpec ++ "/main.tf")
           (processSpecFile exOracle "./in/spec.yml" exSpec ⟨[], []⟩).1.files =
         some (rdsFileTemplate exSpec) ∧
       (exOracle.rmOk "./in/spec.yml" = true →
         lookupFile "./in/spec.yml"
             (processSpecFile exOracle "./in/spec.yml" exSpec ⟨[], []⟩).1.files = none ∧
         (processSpecFile exOracle "./in/spec.yml" exSpec ⟨[], []⟩).2 = true) ∧
       (exOracle.rmOk "./in/spec.yml" = false →
         lookupFile "./in/spec.yml"
             (processSpecFile exOracle "./in/spec.yml" exSpec ⟨[], []⟩).1.files =
           lookupFile "./in/spec.yml" (FSState.mk [] []).files ∧
         (processSpecFile exOracle "./in/spec.yml" exSpec ⟨[], []⟩).2 = false)) ∧
     ((exOracle.writeOk (targetDir exSpec ++ "/config.tf") = false ∨
       exOracle.writeOk (targetDir exSpec ++ "/main.tf") = false) →
       lookupFile "./in/spec.yml"
           (processSpecFile exOracle "./in/spec.yml" exSpec ⟨[], []⟩).1.files =
         lookupFile "./in/spec.yml" (FSState.mk [] []).files ∧
       (processSpecFile exOracle "./in/spec.yml" exSpec ⟨[], []⟩).2 = false)) :=
  ⟨by decide, by decide,
   placement_semantics exOracle "./in/spec.yml" exSpec ⟨[], []⟩ (by decide) (by decide)⟩

/-- Claim C6: a security rule renders `cidr_blocks` as a bracketed list
with one quoted, comma-terminated string per line; an empty `cidrBlocks`
list yields the bracket pair with only a whitespace line between the
brackets. -/
theorem cidr_list_lines (r : SGRuleSpec) (hr : inertSGRule r = true) :
    (r.cidrBlocks ≠ [] →
      splitLines (sgRuleTemplate r).data =
        [("\x7b").data,
         ("  type        = \"").data ++ ((typeOrIngress r.type).data ++ ("\"").data),
         ("  description = \"").data ++ (r.description.data ++ ("\"").data),
         ("  from_port   = ").data ++ (toString r.fromPort).data,
         ("  to_port     = ").data ++ (toString r.toPort).data,
         ("  cidr_blocks = [").data] ++
        r.cidrBlocks.map (fun b => ("    \"").data ++ (b.data ++ ("\",").data)) ++
        [("  ]").data, ("\x7d,").data]) ∧
    (r.cidrBlocks = [] →
      splitLines (sgRuleTemplate r).data =
        [("\x7b").data,
         ("  type        = \"").data ++ ((typeOrIngress r.type).data ++ ("\"").data),
         ("  description = \"").data ++ (r.description.data ++ ("\"").data),
         ("  from_port   = ").data ++ (toString r.fromPort).data,
         ("  to_port     = ").data ++ (toString r.toPort).data,
         ("  cidr_blocks = [").data,
         ("    ").data, ("  ]").data, ("\x7d,").data]) := by
  obtain ⟨hT, hd, hf, hp, hb⟩ := inertSGRule_parts hr
  constructor
  · intro hne
    rw [splitLines_sgRuleTemplate r hr]
    unfold sgLines
    rw [splitLines_cidrJoined r hne hb]
    rw [List.map_map]
    simp [Function.comp, List.append_assoc]
  · intro hE
    rw [splitLines_sgRuleTemplate r hr]
    unfold sgLines
    rw [show cidrJoined r = "" from by unfold cidrJoined; rw [hE]; rfl]
    rw [show splitLines (("" : String)).data = [[]] from rfl]
    simp [List.append_assoc]

theorem cidr_list_lines_witness :
    inertSGRule exRule = true ∧ exRule.cidrBlocks ≠ [] ∧
    splitLines (sgRuleTemplate exRule).data =
      [("\x7b").data,
       ("  type        = \"").data ++ ((typeOrIngress exRule.type).data ++ ("\"").data),
       ("  description = \"").data ++ (exRule.description.data ++ ("\"").data),
       ("  from_port   = ").data ++ (toString exRule.fromPort).data,
       ("  to_port     = ").data ++ (toString exRule.toPort).data,
       ("  cidr_blocks = [").data] ++
      exRule.cidrBlocks.map (fun b => ("    \"").data ++ (b.data ++ ("\",").data)) ++
      [("  ]").data, ("\x7d,").data] :=
  ⟨by decide, by decide, (cidr_list_lines exRule (by decide)).1 (by decide)⟩

theorem map_ind_flatten (m : List (String × InstanceSpec)) (ind : List Char) :
    ((m.map (fun kv => instanceLines kv.1 kv.2)).flatten).map (fun p => ind ++ p) =
      (m.map (fun kv => (instanceLines kv.1 kv.2).map (fun p => ind ++ p))).flatten := by
  induction m with
  | nil => rfl
  | cons x xs ih => simp [ih]

/-- Claim C5 (amended): when no instance key is an ECMAScript array-index
string, the per-instance blocks of the rendered module text appear
contiguously in the order the keys occur in the source document.  (The
unamended claim is refuted by `instances_reorder_counterexample`:
`Object.entries` moves array-index keys to the front in ascending numeric
order.) -/
theorem instances_doc_order (doc : Spec) (hs : inertSpec doc = true)
    (hne : doc.instances ≠ [])
    (hk : ∀ kv ∈ doc.instances, isArrayIndexKey kv.1 = false) :
    ∃ A B, splitLines (rdsFileTemplate doc).data =
      A ++ (doc.instances.map (fun kv =>
        (instanceLines kv.1 kv.2).map (fun p => ("    ").data ++ p))).flatten ++ B := by
  obtain ⟨_, _, _, _, _, _, hin, _, _⟩ := inertSpec_parts hs
  refine ⟨[("module \"riiid_rds\" \x7b").data,
      ("  source = \"../../../../../modules/aws/rds\"").data,
      [],
      ("  project   = \"").data ++ (doc.project.data ++ ("\"").data),
      ("  component = \"").data ++ (doc.component.data ++ ("\"").data),
      ("  env       = \"").data ++ (doc.env.data ++ ("\"").data)] ++
      ((splitLines (nameOverrideFragment doc.nameOverride).data).map
        (fun p => ("  ").data ++ p)) ++
      [("  engine_version = \"").data ++ (doc.engineVersion.data ++ ("\"").data),
       ("  ").data,
       ("  instances = \x7b").data],
    [("  \x7d").data, [],
     ("  vault = \x7b").data,
     ("    path                = \"").data ++ (doc.vault.path.data ++ ("\"").data),
     ("    database_name_key   = \"").data ++ (doc.vault.databaseNameKey.data ++ ("\"").data),
     ("    username_key        = \"").data ++ (doc.vault.usernameKey.data ++ ("\"").data),
     ("    password_key        = \"").data ++ (doc.vault.passwordKey.data ++ ("\"").data),
     ("    endpoint_output_key = \"").data ++ (doc.vault.endpointOutputKey.data ++ ("\"").data),
     ("  \x7d").data] ++
      ((splitLines (extraSGRulesTemplate doc.extraSGRules).data).map
        (fun p => ("  ").data ++ p)) ++
      [("\x7d").data] ++ [[]], ?_⟩
  rw [splitLines_rdsFileTemplate doc hs]
  unfold rdsLines
  rw [splitLines_instancesJoined doc hin hne, jsEntries_eq_self _ hk,
    map_ind_flatten]
  simp only [List.append_assoc, List.cons_append, List.nil_append]

set_option maxRecDepth 10000 in
/-- Counterexample to claim C5 as stated: a spec whose instance keys occur
in document order `["2", "1"]` renders the block of key `"1"` before the
block of key `"2"`, because both keys are array indices and
`Object.entries` enumerates them in ascending numeric order. -/
theorem instances_reorder_counterexample :
    cexSpec.instances.map Prod.fst = ["2", "1"] ∧
    (splitLines (rdsFileTemplate cexSpec).data).filter
        (fun l => decide (l = ("    1 = \x7b").data) || decide (l = ("    2 = \x7b").data)) =
      [("    1 = \x7b").data, ("    2 = \x7b").data] := by
  constructor
  · rfl
  · decide

theorem instances_doc_order_witness :
    inertSpec exSpec = true ∧ exSpec.instances ≠ [] ∧
    (∀ kv ∈ exSpec.instances, isArrayIndexKey kv.1 = false) ∧
    ∃ A B, splitLines (rdsFileTemplate exSpec).data =
      A ++ (exSpec.instances.map (fun kv =>
        (instanceLines kv.1 kv.2).map (fun p => ("    ").data ++ p))).flatten ++ B :=
  ⟨by decide, by decide, by decide,
   instances_doc_order exSpec (by decide) (by decide) (by decide)⟩

/-- Claim C3 (amended): a spec without `nameOverride` renders module text
with no `name_override` line; a spec with `nameOverride` set to a
non-empty string renders exactly one line `  name_override = <value>`,
positioned before the `engine_version` line, and no other line carries a
name_override binding.  (The unamended claim — any present `nameOverride`
produces the line — is refuted by `name_override_empty_counterexample`.) -/
theorem name_override_line (doc : Spec) (hs : inertSpec doc = true) :
    (doc.nameOverride = none →
      (splitLines (rdsFileTemplate doc).data).countP isNameOverrideLine = 0) ∧
    (∀ s, doc.nameOverride = some s → s ≠ "" →
      (splitLines (rdsFileTemplate doc).data).countP isNameOverrideLine = 1 ∧
      ∃ A B C, splitLines (rdsFileTemplate doc).data =
        A ++ [("  name_override = ").data ++ s.data] ++ B ++
          [("  engine_version = \"").data ++ (doc.engineVersion.data ++ ("\"").data)] ++ C ∧
        A.countP isNameOverrideLine = 0 ∧ B.countP isNameOverrideLine = 0 ∧
        C.countP isNameOverrideLine = 0) := by
  constructor
  · intro hno
    rw [splitLines_rdsFileTemplate doc hs, List.countP_append,
      countP_rdsLines_none doc hs hno]
    rfl
  · intro s hsome hne
    obtain ⟨_, _, _, _, _, hnoi, _, _, hsg⟩ := inertSpec_parts hs
    have hsi : inertStr s = true := hnoi s hsome
    have hdec : splitLines (rdsFileTemplate doc).data =
        ([("module \"riiid_rds\" \x7b").data,
          ("  source = \"../../../../../modules/aws/rds\"").data,
          [],
          ("  project   = \"").data ++ (doc.project.data ++ ("\"").data),
          ("  component = \"").data ++ (doc.component.data ++ ("\"").data),
          ("  env       = \"").data ++ (doc.env.data ++ ("\"").data),
          ("  ").data] : List (List Char)) ++
        [("  name_override = ").data ++ s.data] ++
        [("  ").data] ++
        [("  engine_version = \"").data ++ (doc.engineVersion.data ++ ("\"").data)] ++
        (([("  ").data, ("  instances = \x7b").data] : List (List Char)) ++
         (((splitLines (instancesJoined doc).data).map (fun p => ("    ").data ++ p)) ++
          (([("  \x7d").data, [], ("  vault = \x7b").data,
             ("    path                = \"").data ++ (doc.vault.path.data ++ ("\"").data),
             ("    database_name_key   = \"").data ++
               (doc.vault.databaseNameKey.data ++ ("\"").data),
             ("    username_key        = \"").data ++
               (doc.vault.usernameKey.data ++ ("\"").data),
             ("    password_key        = \"").data ++
               (doc.vault.passwordKey.data ++ ("\"").data),
             ("    endpoint_output_key = \"").data ++
               (doc.vault.endpointOutputKey.data ++ ("\"").data),
             ("  \x7d").data] : List (List Char)) ++
           (((splitLines (extraSGRulesTemplate doc.extraSGRules).data).map
               (fun p => ("  ").data ++ p)) ++
            [("\x7d").data, []])))) := by
      rw [splitLines_rdsFileTemplate doc hs]
      unfold rdsLines
      rw [hsome, splitLines_nameOverrideFragment_some s hne hsi]
      simp [List.append_assoc]
    have hA : ([("module \"riiid_rds\" \x7b").data,
          ("  source = \"../../../../../modules/aws/rds\"").data,
          [],
          ("  project   = \"").data ++ (doc.project.data ++ ("\"").data),
          ("  component = \"").data ++ (doc.component.data ++ ("\"").data),
          ("  env       = \"").data ++ (doc.env.data ++ ("\"").data),
          ("  ").data] : List (List Char)).countP isNameOverrideLine = 0 := by
      rw [List.countP_eq_zero]
      intro l hl
      simp only [Bool.not_eq_true]
      simp only [List.mem_cons] at hl
      rcases hl with h | h | h | h | h | h | h | h
      · subst h; rfl
      · subst h; rfl
      · subst h; rfl
      · subst h; rfl
      · subst h; rfl
      · subst h; rfl
      · subst h; rfl
      · simp at h
    have hB : ([("  ").data] : List (List Char)).countP isNameOverrideLine = 0 := by
      decide
    have hC : ((([("  ").data, ("  instances = \x7b").data] : List (List Char)) ++
         (((splitLines (instancesJoined doc).data).map (fun p => ("    ").data ++ p)) ++
          (([("  \x7d").data, [], ("  vault = \x7b").data,
             ("    path                = \"").data ++ (doc.vault.path.data ++ ("\"").data),
             ("    database_name_key   = \"").data ++
               (doc.vault.databaseNameKey.data ++ ("\"").data),
             ("    username_key        = \"").data ++
               (doc.vault.usernameKey.data ++ ("\"").data),
             ("    password_key        = \"").data ++
               (doc.vault.passwordKey.data ++ ("\"").data),
             ("    endpoint_output_key = \"").data ++
               (doc.vault.endpointOutputKey.data ++ ("\"").data),
             ("  \x7d").data] : List (List Char)) ++
           (((splitLines (extraSGRulesTemplate doc.extraSGRules).data).map
               (fun p => ("  ").data ++ p)) ++
            [("\x7d").data, []]))))).countP isNameOverrideLine = 0 := by
      rw [List.countP_eq_zero]
      intro l hl
      simp only [Bool.not_eq_true]
      rcases List.mem_append.mp hl with h | h
      · simp only [List.mem_cons] at h
        rcases h with h | h | h
        · subst h; rfl
        · subst h; rfl
        · simp at h
      · rcases List.mem_append.mp h with h | h
        · rcases List.mem_map.mp h with ⟨p, hpm, rfl⟩
          exact isNameOverrideLine_sp4 p
        · rcases List.mem_append.mp h with h | h
          · simp only [List.mem_cons] at h
            rcases h with h | h | h | h | h | h | h | h | h | h
            · subst h; rfl
            · subst h; rfl
            · subst h; rfl
            · subst h; rfl
            · subst h; rfl
            · subst h; rfl
            · subst h; rfl
            · subst h; rfl
            · subst h; rfl
            · simp at h
          · rcases List.mem_append.mp h with h | h
            · rcases List.mem_map.mp h with ⟨p, hpm, rfl⟩
              exact isNameOverrideLine_extra doc.extraSGRules hsg p hpm
            · simp only [List.mem_cons] at h
              rcases h with h | h | h
              · subst h; rfl
              · subst h; rfl
              · simp at h
    have hn1 : List.countP isNameOverrideLine
        [("  name_override = ").data ++ s.data] = 1 := by
      rw [List.countP_cons]
      rw [show isNameOverrideLine (("  name_override = ").data ++ s.data) = true from rfl]
      rfl
    have he0 : List.countP isNameOverrideLine
        [("  engine_version = \"").data ++ (doc.engineVersion.data ++ ("\"").data)] = 0 := by
      rw [List.countP_cons]
      rw [show isNameOverrideLine
        (("  engine_version = \"").data ++ (doc.engineVersion.data ++ ("\"").data)) =
          false from rfl]
      rfl
    refine ⟨?_, _, _, _, hdec, hA, hB, hC⟩
    rw [hdec]
    rw [List.countP_append, hC]
    rw [List.countP_append, he0]
    rw [List.countP_append, hB]
    rw [List.countP_append, hA, hn1]

/-- Counterexample to claim C3 as stated: a spec whose `nameOverride` is
present ("set") but equal to the empty string renders with no
`name_override` line at all, because the source guards the fragment with a
JavaScript truthiness check and the empty string is falsy. -/
theorem name_override_empty_counterexample :
    exSpecEmptyNO.nameOverride = some "" ∧
    (splitLines (rdsFileTemplate exSpecEmptyNO).data).countP isNameOverrideLine = 0 := by
  constructor
  · rfl
  · have hsame : rdsFileTemplate exSpecEmptyNO =
        rdsFileTemplate { exSpecEmptyNO with nameOverride := none } := rfl
    rw [hsame]
    rw [splitLines_rdsFileTemplate _ (by decide), List.countP_append,
      countP_rdsLines_none _ (by decide) rfl]
    rfl

theorem name_override_line_witness :
    inertSpec exSpecNO = true ∧ exSpecNO.nameOverride = some "foo" ∧
    (("foo" : String) ≠ "") ∧
    ((splitLines (rdsFileTemplate exSpecNO).data).countP isNameOverrideLine = 1 ∧
     ∃ A B C, splitLines (rdsFileTemplate exSpecNO).data =
       A ++ [("  name_override = ").data ++ ("foo" : String).data] ++ B ++
         [("  engine_version = \"").data ++
           (exSpecNO.engineVersion.data ++ ("\"").data)] ++ C ∧
       A.countP isNameOverrideLine = 0 ∧ B.countP isNameOverrideLine = 0 ∧
       C.countP isNameOverrideLine = 0) :=
  ⟨by decide, rfl, by decide,
   (name_override_line exSpecNO (by decide)).2 "foo" rfl (by decide)⟩

end RdsGen
